import Mathlib

/-!
# ircbridged: a UDP to IRC bridge

Shallow embedding of `src/ircbridged.go` and `src/main.go` (two variants of the
same program) and the properties of the command dispatcher, the channel
membership set and the session lifecycle handlers.

Modelling conventions

* The package-level `joinedChannels : map[string]struct{}` is a `Finset String`
  passed explicitly through every handler.
* Everything a handler does to the outside world (mutex operations, calls on
  the IRC session, log lines, sleeping, channel sends) is recorded, in program
  order, as a list of `Effect`s returned next to the new membership set.
* Go slice indexing is `index`, which is `none` exactly when Go would panic
  with "index out of range"; handlers that index return an `Option`.
* Results of external calls (`conn.Connect`, `conn.Read`, `json.Unmarshal`,
  the iteration order of `range` over a map) are inputs of the model.
-/

namespace IrcBridge

/-! ## Data model -/

/-- The `Command` struct of both files. -/
structure Command where
  Method : String
  Params : List String
deriving DecidableEq, Repr

/-- The zero value of `Command` (what `var cmd Command` declares). -/
def Command.zero : Command := ⟨"", []⟩

/-- Calls made on the IRC session `*irc.Conn`. -/
inductive SessionOp where
  | Privmsg (target text : String)
  | Notice (target text : String)
  | Join (channel : String)
  | Part (channel : String)
  | Connect
deriving DecidableEq, Repr

/-- A datagram payload, `bs[:n]`. -/
abbrev Payload := List UInt8

/-- The log lines the program can write, one constructor per `log.` call site. -/
inductive LogEntry where
  /-- Written by `log.Printf("warning: invalid command: %#v", cmd)`. -/
  | invalidCommand (cmd : Command)
  /-- Written by `log.Printf("debug: handled: %#v", cmd)`. -/
  | handled (cmd : Command)
  /-- Written by `log.Println("warning: disconnected from IRC")`. -/
  | disconnected
  /-- Written by `log.Println("notice: reconnecting")`. -/
  | reconnecting
  /-- Written by `log.Println("notice: reconnected")`. -/
  | reconnected
  /-- Written by `log.Println(err)` after a failed `conn.Connect`. -/
  | connectError (err : String)
  /-- Written by `log.Println("rejoining", c)`. -/
  | rejoining (channel : String)
  /-- Written by `log.Printf("debug: recv: %q", string(bs[:n]))`. -/
  | recv (payload : Payload)
  /-- Written by `log.Println("warning:", err)` after a failed `json.Unmarshal`. -/
  | decodeError (err : String)
  /-- Written by `log.Printf("debug: recv (parsed): %#v", cmd)`. -/
  | recvParsed (cmd : Command)
  /-- Written by `log.Fatal(err)`, after which the process exits. -/
  | fatal (err : String)
deriving DecidableEq, Repr

/-- The entries whose text starts with `warning:`. -/
def LogEntry.isWarning : LogEntry → Bool
  | .invalidCommand _ => true
  | .disconnected => true
  | .decodeError _ => true
  | _ => false

/-- Observable actions of the program, in the order they happen. -/
inductive Effect where
  /-- The call `clientLock.Lock()`. -/
  | lock
  /-- The call `clientLock.Unlock()`. -/
  | unlock
  /-- A call on the IRC session. -/
  | session (op : SessionOp)
  /-- A log line. -/
  | log (e : LogEntry)
  /-- The call `time.Sleep(d)`, `d` in nanoseconds. -/
  | sleep (d : Int)
  /-- The channel send `cmdChan <- cmd`. -/
  | send (cmd : Command)
deriving DecidableEq, Repr

/-- The session calls among a list of effects, in order. -/
def sessionOps : List Effect → List SessionOp
  | [] => []
  | Effect.session op :: rest => op :: sessionOps rest
  | _ :: rest => sessionOps rest

/-- The log lines among a list of effects, in order. -/
def logEntries : List Effect → List LogEntry
  | [] => []
  | Effect.log e :: rest => e :: logEntries rest
  | _ :: rest => logEntries rest

/-- The sleep durations among a list of effects, in order. -/
def sleeps : List Effect → List Int
  | [] => []
  | Effect.sleep d :: rest => d :: sleeps rest
  | _ :: rest => sleeps rest

/-- Go slice indexing `ps[i]`; `none` is the run-time panic. -/
def index (ps : List String) (i : Nat) : Option String := ps[i]?

/-! ## Command dispatch (`checkParams`, the `switch cmd.Method`) -/

/-- The function `checkParams(cmd, np)`: the returned flag and the log line
written. -/
def checkParams (cmd : Command) (np : Int) : Bool × List Effect :=
  if (cmd.Params.length : Int) < np then
    (false, [Effect.log (LogEntry.invalidCommand cmd)])
  else
    (true, [])

/-- The `switch cmd.Method { ... }` statement, identical in both files. -/
def dispatch (cmd : Command) (joinedChannels : Finset String) :
    Option (Finset String × List Effect) :=
  if cmd.Method = "message" then
    match checkParams cmd 2 with
    | (true, out) => do
      let target ← index cmd.Params 0
      let text ← index cmd.Params 1
      pure (joinedChannels, out ++ [Effect.session (SessionOp.Privmsg target text)])
    | (false, out) => pure (joinedChannels, out)
  else if cmd.Method = "notice" then
    match checkParams cmd 2 with
    | (true, out) => do
      let target ← index cmd.Params 0
      let text ← index cmd.Params 1
      pure (joinedChannels, out ++ [Effect.session (SessionOp.Notice target text)])
    | (false, out) => pure (joinedChannels, out)
  else if cmd.Method = "join" then
    match checkParams cmd 1 with
    | (true, out) => do
      let channel ← index cmd.Params 0
      let key ← index cmd.Params 0
      pure (insert key joinedChannels, out ++ [Effect.session (SessionOp.Join channel)])
    | (false, out) => pure (joinedChannels, out)
  else if cmd.Method = "part" then
    match checkParams cmd 1 with
    | (true, out) => do
      let channel ← index cmd.Params 0
      let key ← index cmd.Params 0
      pure (joinedChannels.erase key, out ++ [Effect.session (SessionOp.Part channel)])
    | (false, out) => pure (joinedChannels, out)
  else
    pure (joinedChannels, [])

/-- The function `handleCommand` of `ircbridged.go`: the lock is taken first and
released by the deferred `Unlock` after the debug line. -/
def handleCommand (debug : Bool) (cmd : Command) (joinedChannels : Finset String) :
    Option (Finset String × List Effect) := do
  let (joinedChannels, out) ← dispatch cmd joinedChannels
  pure (joinedChannels,
    [Effect.lock] ++ out ++ (if debug then [Effect.log (LogEntry.handled cmd)] else [])
      ++ [Effect.unlock])

/-- The loop of `handleCommands` of `ircbridged.go`, run over the commands
received on `cmdChan` so far. -/
def handleCommands (debug : Bool) :
    List Command → Finset String → Option (Finset String × List Effect)
  | [], joinedChannels => some (joinedChannels, [])
  | cmd :: rest, joinedChannels => do
    let (joinedChannels, out) ← handleCommand debug cmd joinedChannels
    let (joinedChannels, out') ← handleCommands debug rest joinedChannels
    pure (joinedChannels, out ++ out')

/-! ## Session lifecycle handlers -/

/-- The body of the `for` loop of `handleDisconnects` up to and including the
call of `conn.Connect`. -/
def attempt (reconnect : Int) : List Effect :=
  [Effect.sleep reconnect, Effect.log LogEntry.reconnecting, Effect.session SessionOp.Connect]

/-- The `for { ... }` loop of `handleDisconnects`. `connect k` is the result of
the call of `conn.Connect` in iteration `k` (counted from `0`): `none` for a nil
error. The loop is run for at most `fuel` iterations from iteration `k`; the
result is what it did and whether it reached its `return`. -/
def retryLoop (reconnect : Int) (connect : Nat → Option String) :
    Nat → Nat → List Effect × Bool
  | 0, _ => ([], false)
  | fuel + 1, k =>
    match connect k with
    | none => (attempt reconnect ++ [Effect.log LogEntry.reconnected], true)
    | some err =>
      let rest := retryLoop reconnect connect fuel (k + 1)
      (attempt reconnect ++ [Effect.log (LogEntry.connectError err)] ++ rest.1, rest.2)

/-- The function `handleDisconnects` of `ircbridged.go`, with the value of the
`reconnect` flag. `none` when the loop has not returned within `fuel` iterations. -/
def handleDisconnects (reconnect : Int) (connect : Nat → Option String) (fuel : Nat)
    (joinedChannels : Finset String) : Option (Finset String × List Effect) :=
  match retryLoop reconnect connect fuel 0 with
  | (out, true) =>
    some (joinedChannels,
      [Effect.log LogEntry.disconnected, Effect.lock] ++ out ++ [Effect.unlock])
  | (_, false) => none

/-- An order in which `for c := range joinedChannels` may visit the keys of the
map: every key once, in an order chosen by the run time. -/
structure RangeOrder where
  keys : Finset String → List String
  enumerates : ∀ s : Finset String, Multiset.ofList (keys s) = s.val

/-- The body of `for c := range joinedChannels`, over the keys in the order
visited. -/
def rejoin : List String → List Effect
  | [] => []
  | c :: rest =>
    Effect.log (LogEntry.rejoining c) :: Effect.session (SessionOp.Join c) :: rejoin rest

/-- The function `handleReconnects` of `ircbridged.go`. -/
def handleReconnects (order : RangeOrder) (joinedChannels : Finset String) :
    Finset String × List Effect :=
  (joinedChannels, [Effect.lock] ++ rejoin (order.keys joinedChannels) ++ [Effect.unlock])

/-- The range order that visits the keys in increasing order. -/
def sortedOrder : RangeOrder where
  keys := fun s => s.sort (fun a b => a ≤ b)
  enumerates := fun s => Finset.sort_eq _ s

/-! ## Ingress loop (`recvUdp`, identical in both files) -/

/-- The behaviour of `json.Unmarshal(bs[:n], &cmd)`: from the payload and the
value `cmd` holds before the call, the value it holds after the call and the
error returned (`none` for nil). -/
abbrev Unmarshal := Payload → Command → Command × Option String

/-- The size of the read buffer, `make([]byte, 10240)`. -/
def bufferSize : Nat := 10240

/-- One iteration of the loop of `recvUdp`. `rd` is the result of
`conn.Read(bs)`: an error, or the datagram, of which at most `len(bs)` bytes
are stored. The result is the command sent on `cmdChan` (`none` when the
process exits in `log.Fatal`) and the effects. -/
def recvUdpIter (debug : Bool) (unmarshal : Unmarshal) (rd : Except String Payload) :
    Option Command × List Effect :=
  match rd with
  | Except.error err => (none, [Effect.log (LogEntry.fatal err)])
  | Except.ok dgram =>
    let payload := dgram.take bufferSize
    let decoded := unmarshal payload Command.zero
    (some decoded.1,
      (if debug then [Effect.log (LogEntry.recv payload)] else [])
      ++ (match decoded.2 with
          | some err => [Effect.log (LogEntry.decodeError err)]
          | none => [])
      ++ (if debug then [Effect.log (LogEntry.recvParsed decoded.1)] else [])
      ++ [Effect.send decoded.1])

/-- The loop of `recvUdp` over the results of the successive reads; it stops at the first
read error. The result is the commands sent on `cmdChan` and the effects. -/
def recvUdp (debug : Bool) (unmarshal : Unmarshal) :
    List (Except String Payload) → List Command × List Effect
  | [] => ([], [])
  | rd :: rest =>
    match recvUdpIter debug unmarshal rd with
    | (none, out) => ([], out)
    | (some cmd, out) =>
      let r := recvUdp debug unmarshal rest
      (cmd :: r.1, out ++ r.2)

/-! ## The variant of `main.go` -/

namespace Main

/-- The constant `time.Second`, in nanoseconds. -/
def second : Int := 1000000000

/-- The constant `reconnectInterval = 10 * time.Second`. -/
def reconnectInterval : Int := 10 * second

/-- One iteration of the loop of `handleCommands` of `main.go`: the closure
holds the lock around the `switch`; the debug line follows the closure. -/
def handleCommandsIter (debug : Bool) (cmd : Command) (joinedChannels : Finset String) :
    Option (Finset String × List Effect) := do
  let (joinedChannels, out) ← dispatch cmd joinedChannels
  pure (joinedChannels,
    [Effect.lock] ++ out ++ [Effect.unlock]
      ++ (if debug then [Effect.log (LogEntry.handled cmd)] else []))

/-- The loop of `handleCommands` of `main.go`, run over the commands received so far. -/
def handleCommands (debug : Bool) :
    List Command → Finset String → Option (Finset String × List Effect)
  | [], joinedChannels => some (joinedChannels, [])
  | cmd :: rest, joinedChannels => do
    let (joinedChannels, out) ← handleCommandsIter debug cmd joinedChannels
    let (joinedChannels, out') ← handleCommands debug rest joinedChannels
    pure (joinedChannels, out ++ out')

/-- The `irc.DISCONNECTED` handler installed by `connectIRC`. -/
def disconnectedHandler (connect : Nat → Option String) (fuel : Nat)
    (joinedChannels : Finset String) : Option (Finset String × List Effect) :=
  match retryLoop reconnectInterval connect fuel 0 with
  | (out, true) =>
    some (joinedChannels,
      [Effect.log LogEntry.disconnected, Effect.lock] ++ out ++ [Effect.unlock])
  | (_, false) => none

/-- The `irc.INIT` handler installed by `connectIRC`. -/
def initHandler (order : RangeOrder) (joinedChannels : Finset String) :
    Finset String × List Effect :=
  (joinedChannels, [Effect.lock] ++ rejoin (order.keys joinedChannels) ++ [Effect.unlock])

end Main

/-! ## Runs of the program -/

/-- What can happen to the process: a command arrives at the dispatcher, the
session is lost and restored after the connect attempts failing with `errs`
(in turn) are followed by one that succeeds, or the session-established event
fires (with the order in which the map is ranged over). -/
inductive Event where
  | command (cmd : Command)
  | disconnect (errs : List String)
  | established (order : RangeOrder)

/-- The handler run for one event (`ircbridged.go`). -/
def step (debug : Bool) (reconnect : Int) (ev : Event) (joinedChannels : Finset String) :
    Option (Finset String × List Effect) :=
  match ev with
  | Event.command cmd => handleCommand debug cmd joinedChannels
  | Event.disconnect errs =>
    handleDisconnects reconnect (fun k => errs[k]?) (errs.length + 1) joinedChannels
  | Event.established order => some (handleReconnects order joinedChannels)

/-- The handlers run for a sequence of events, one after the other. -/
def run (debug : Bool) (reconnect : Int) :
    List Event → Finset String → Option (Finset String × List Effect)
  | [], joinedChannels => some (joinedChannels, [])
  | ev :: rest, joinedChannels => do
    let (joinedChannels, out) ← step debug reconnect ev joinedChannels
    let (joinedChannels, out') ← run debug reconnect rest joinedChannels
    pure (joinedChannels, out ++ out')

/-! ## Observations on effect lists and sample inputs -/

/-- The log lines written at warning level among a list of effects. -/
def warnings (out : List Effect) : List LogEntry :=
  (logEntries out).filter LogEntry.isWarning

/-- The commands sent on `cmdChan` among a list of effects, in order. -/
def sends : List Effect → List Command
  | [] => []
  | Effect.send cmd :: rest => cmd :: sends rest
  | _ :: rest => sends rest

/-- The bytes of the datagram `{"Method":"join","Params":["#room",1]}`. -/
def typeErrorPayload : Payload :=
  [123, 34, 77, 101, 116, 104, 111, 100, 34, 58, 34, 106, 111, 105, 110, 34, 44, 34, 80, 97,
   114, 97, 109, 115, 34, 58, 91, 34, 35, 114, 111, 111, 109, 34, 44, 49, 93, 125]

/-- A decoder that does on `typeErrorPayload` what `encoding/json` does on a
value of the wrong type: the number `1` cannot be stored in an element of
`Params []string`, so that element is left at its zero value, the rest of the
document is decoded (`Method`, the first element of `Params`) and an
`UnmarshalTypeError` is returned. Any other payload is rejected with the
target untouched. -/
def typeErrorUnmarshal : Unmarshal := fun payload cmd =>
  if payload = typeErrorPayload then
    (⟨"join", ["#room", ""]⟩,
      some "json: cannot unmarshal number into Go value of type string")
  else
    (cmd, some "invalid character")

/-- The bytes of the truncated datagram `{"Method":`. -/
def truncatedPayload : Payload := [123, 34, 77, 101, 116, 104, 111, 100, 34, 58]

/-- A decoder that rejects every payload as syntactically invalid, with the
target untouched (what `encoding/json` does on `truncatedPayload`). -/
def syntaxErrorUnmarshal : Unmarshal := fun _ cmd =>
  (cmd, some "unexpected end of JSON input")

/-- The sleeps and the session calls among a list of effects, in order: the
pacing of the reconnect loop. -/
def pacing : List Effect → List Effect
  | [] => []
  | Effect.sleep d :: rest => Effect.sleep d :: pacing rest
  | Effect.session op :: rest => Effect.session op :: pacing rest
  | _ :: rest => pacing rest

/-- The pacing of `n` rounds of the reconnect loop: each round one sleep of
`reconnect` followed by one call of `conn.Connect`. -/
def rounds (reconnect : Int) : Nat → List Effect
  | 0 => []
  | n + 1 => Effect.sleep reconnect :: Effect.session SessionOp.Connect :: rounds reconnect n

/-- Connect results in which the first two attempts are refused and every later
one succeeds. -/
def refusedTwice : Nat → Option String :=
  fun k => if k < 2 then some "connection refused" else none

/-! ## Vocabulary of the membership invariant -/

/-- The command is a join or part command with at least one param whose first
param is `c`. -/
def Command.isJoinOrPartOf (cmd : Command) (c : String) : Prop :=
  (cmd.Method = "join" ∨ cmd.Method = "part") ∧ index cmd.Params 0 = some c

/-- No event of the sequence is a join or part command for `c`. -/
def noJoinPart (events : List Event) (c : String) : Prop :=
  ∀ cmd, Event.command cmd ∈ events → ¬ cmd.isJoinOrPartOf c

/-- The sequence contains a join or part command for `c` and the last such
command is a join. -/
def lastIsJoin (events : List Event) (c : String) : Prop :=
  ∃ before cmd after, events = before ++ Event.command cmd :: after ∧
    cmd.Method = "join" ∧ index cmd.Params 0 = some c ∧ noJoinPart after c

/-! ## Goroutines and `clientLock` -/

/-- The steps a goroutine takes while it runs a handler: the observable effects
and the accesses to the map `joinedChannels`. -/
inductive Action where
  /-- An observable effect (mutex operation, session call, log line, sleep). -/
  | effect (e : Effect)
  /-- The assignment `joinedChannels[key] = struct{}{}`. -/
  | mapInsert (key : String)
  /-- The call `delete(joinedChannels, key)`. -/
  | mapDelete (key : String)
  /-- The loop `for c := range joinedChannels` reads the map and yields `key`. -/
  | mapRange (key : String)
deriving DecidableEq, Repr

/-- The observable effects among a list of steps, in order. -/
def effectsOf : List Action → List Effect
  | [] => []
  | Action.effect e :: rest => e :: effectsOf rest
  | _ :: rest => effectsOf rest

/-- The membership set after the map writes among a list of steps. -/
def applyMap : List Action → Finset String → Finset String
  | [], joinedChannels => joinedChannels
  | Action.mapInsert key :: rest, joinedChannels => applyMap rest (insert key joinedChannels)
  | Action.mapDelete key :: rest, joinedChannels => applyMap rest (joinedChannels.erase key)
  | _ :: rest, joinedChannels => applyMap rest joinedChannels

/-- The step touches the IRC session or the map `joinedChannels`. -/
def Action.isProtected : Action → Bool
  | Action.effect (Effect.session _) => true
  | Action.mapInsert _ => true
  | Action.mapDelete _ => true
  | Action.mapRange _ => true
  | _ => false

/-- The step is `clientLock.Lock()` or `clientLock.Unlock()`. -/
def Action.isMutexOp : Action → Bool
  | Action.effect Effect.lock => true
  | Action.effect Effect.unlock => true
  | _ => false

/-- The step only writes a log line. -/
def Action.isLog : Action → Bool
  | Action.effect (Effect.log _) => true
  | _ => false

/-- The steps of the `switch cmd.Method { ... }` statement: as `dispatch`, with
the map writes at their place after the session call. -/
def dispatchSteps (cmd : Command) : Option (List Action) :=
  if cmd.Method = "message" then
    match checkParams cmd 2 with
    | (true, out) => do
      let target ← index cmd.Params 0
      let text ← index cmd.Params 1
      pure (out.map Action.effect
        ++ [Action.effect (Effect.session (SessionOp.Privmsg target text))])
    | (false, out) => pure (out.map Action.effect)
  else if cmd.Method = "notice" then
    match checkParams cmd 2 with
    | (true, out) => do
      let target ← index cmd.Params 0
      let text ← index cmd.Params 1
      pure (out.map Action.effect
        ++ [Action.effect (Effect.session (SessionOp.Notice target text))])
    | (false, out) => pure (out.map Action.effect)
  else if cmd.Method = "join" then
    match checkParams cmd 1 with
    | (true, out) => do
      let channel ← index cmd.Params 0
      let key ← index cmd.Params 0
      pure (out.map Action.effect
        ++ [Action.effect (Effect.session (SessionOp.Join channel)), Action.mapInsert key])
    | (false, out) => pure (out.map Action.effect)
  else if cmd.Method = "part" then
    match checkParams cmd 1 with
    | (true, out) => do
      let channel ← index cmd.Params 0
      let key ← index cmd.Params 0
      pure (out.map Action.effect
        ++ [Action.effect (Effect.session (SessionOp.Part channel)), Action.mapDelete key])
    | (false, out) => pure (out.map Action.effect)
  else
    pure []

/-- The steps of `handleCommand` of `ircbridged.go`. -/
def handleCommandSteps (debug : Bool) (cmd : Command) : Option (List Action) := do
  let body ← dispatchSteps cmd
  pure ([Action.effect Effect.lock] ++ body
    ++ (if debug then [Action.effect (Effect.log (LogEntry.handled cmd))] else [])
    ++ [Action.effect Effect.unlock])

/-- The steps of `handleDisconnects` of `ircbridged.go` within `fuel`
iterations of its loop; while the loop has not returned the lock is not
released. -/
def handleDisconnectsSteps (reconnect : Int) (connect : Nat → Option String) (fuel : Nat) :
    List Action :=
  ([Effect.log LogEntry.disconnected, Effect.lock]
    ++ (retryLoop reconnect connect fuel 0).1
    ++ (if (retryLoop reconnect connect fuel 0).2 then [Effect.unlock] else [])).map
    Action.effect

/-- The steps of the body of `for c := range joinedChannels`, over the keys in
the order visited. -/
def rejoinSteps : List String → List Action
  | [] => []
  | c :: rest =>
    Action.mapRange c :: Action.effect (Effect.log (LogEntry.rejoining c))
      :: Action.effect (Effect.session (SessionOp.Join c)) :: rejoinSteps rest

/-- The steps of `handleReconnects` of `ircbridged.go`, when the map holds
`joinedChannels` as the handler takes the lock. -/
def handleReconnectsSteps (order : RangeOrder) (joinedChannels : Finset String) :
    List Action :=
  [Action.effect Effect.lock] ++ rejoinSteps (order.keys joinedChannels)
    ++ [Action.effect Effect.unlock]

/-- The steps of one iteration of the loop of `handleCommands` of `main.go`. -/
def Main.handleCommandsIterSteps (debug : Bool) (cmd : Command) : Option (List Action) := do
  let body ← dispatchSteps cmd
  pure ([Action.effect Effect.lock] ++ body ++ [Action.effect Effect.unlock]
    ++ (if debug then [Action.effect (Effect.log (LogEntry.handled cmd))] else []))

/-- The steps of the `irc.DISCONNECTED` handler of `main.go`. -/
def Main.disconnectedHandlerSteps (connect : Nat → Option String) (fuel : Nat) :
    List Action :=
  handleDisconnectsSteps Main.reconnectInterval connect fuel

/-- The steps of the `irc.INIT` handler of `main.go`. -/
def Main.initHandlerSteps (order : RangeOrder) (joinedChannels : Finset String) :
    List Action :=
  [Action.effect Effect.lock] ++ rejoinSteps (order.keys joinedChannels)
    ++ [Action.effect Effect.unlock]

/-- One run of one of the six handlers that take `clientLock`, with its inputs. -/
inductive Invocation where
  | handleCommand (debug : Bool) (cmd : Command)
  | handleDisconnects (reconnect : Int) (connect : Nat → Option String) (fuel : Nat)
  | handleReconnects (order : RangeOrder) (joinedChannels : Finset String)
  | mainHandleCommands (debug : Bool) (cmd : Command)
  | mainDisconnected (connect : Nat → Option String) (fuel : Nat)
  | mainInit (order : RangeOrder) (joinedChannels : Finset String)

/-- The steps of an invocation (`none`: the handler panics). -/
def Invocation.steps : Invocation → Option (List Action)
  | Invocation.handleCommand debug cmd => handleCommandSteps debug cmd
  | Invocation.handleDisconnects reconnect connect fuel =>
    some (handleDisconnectsSteps reconnect connect fuel)
  | Invocation.handleReconnects order joinedChannels =>
    some (handleReconnectsSteps order joinedChannels)
  | Invocation.mainHandleCommands debug cmd => Main.handleCommandsIterSteps debug cmd
  | Invocation.mainDisconnected connect fuel =>
    some (Main.disconnectedHandlerSteps connect fuel)
  | Invocation.mainInit order joinedChannels =>
    some (Main.initHandlerSteps order joinedChannels)

/-- The steps after the deferred `Unlock`: log lines only. -/
def afterShape : List Action → Bool
  | [] => true
  | a :: rest => a.isLog && afterShape rest

/-- The steps of a goroutine that holds the lock: no mutex operation up to the
`Unlock` (if the handler ever returns), then log lines only. -/
def insideShape : List Action → Bool
  | [] => true
  | a :: rest =>
    if a = Action.effect Effect.unlock then afterShape rest
    else !a.isMutexOp && insideShape rest

/-- The lock discipline of a handler: log lines only up to the `Lock`, then the
steps of a goroutine that holds the lock. -/
def beforeShape : List Action → Bool
  | [] => false
  | a :: rest =>
    if a = Action.effect Effect.lock then insideShape rest
    else a.isLog && beforeShape rest

/-- A goroutine running a handler: the steps taken and the steps to come. -/
structure Goroutine where
  done : List Action
  todo : List Action
deriving DecidableEq, Repr

/-- The goroutine has taken `clientLock` and not released it. -/
def Goroutine.inSection (g : Goroutine) : Prop :=
  Action.effect Effect.lock ∈ g.done ∧ Action.effect Effect.unlock ∉ g.done

/-- The state of the process: which goroutine holds `clientLock`, if any, and
the goroutines. -/
structure System where
  holder : Option Nat
  goroutines : List Goroutine
deriving DecidableEq, Repr

/-- The process as the goroutines are started, one per list of steps. -/
def spawn (progs : List (List Action)) : System :=
  ⟨none, progs.map (fun p => ⟨[], p⟩)⟩

/-- Goroutine `i` takes its next step, under the semantics of `sync.Mutex`:
`Lock` can be taken only while no goroutine holds the mutex (otherwise the
goroutine blocks), `Unlock` releases it (and is a fatal error on an unlocked
mutex). `none`: goroutine `i` cannot take a step. -/
def advance (i : Nat) (s : System) : Option System :=
  match s.goroutines[i]? with
  | none => none
  | some g =>
    match g.todo with
    | [] => none
    | a :: rest =>
      if a = Action.effect Effect.lock then
        if s.holder = none then
          some ⟨some i, s.goroutines.set i ⟨g.done ++ [a], rest⟩⟩
        else none
      else if a = Action.effect Effect.unlock then
        if s.holder = none then none
        else some ⟨none, s.goroutines.set i ⟨g.done ++ [a], rest⟩⟩
      else
        some ⟨s.holder, s.goroutines.set i ⟨g.done ++ [a], rest⟩⟩

/-- The process after the goroutines take steps in the order of `schedule`
(`none`: the schedule is not possible). -/
def runSchedule : List Nat → System → Option System
  | [], s => some s
  | i :: schedule, s =>
    match advance i s with
    | none => none
    | some s' => runSchedule schedule s'

/-- The steps of a restoration pass on the set `{"#room"}`. -/
def restorationSteps : List Action :=
  [Action.effect Effect.lock, Action.mapRange "#room",
   Action.effect (Effect.log (LogEntry.rejoining "#room")),
   Action.effect (Effect.session (SessionOp.Join "#room")),
   Action.effect Effect.unlock]

/-- The steps of the dispatch of part `["#room"]`, debug flag clear. -/
def partSteps : List Action :=
  [Action.effect Effect.lock, Action.effect (Effect.session (SessionOp.Part "#room")),
   Action.mapDelete "#room", Action.effect Effect.unlock]

/-- The position of goroutine `i` in its handler agrees with the holder of the
lock: before its `Lock` (only log lines taken) or after its `Unlock` it is not
the holder; in between it is. -/
def Goroutine.consistent (g : Goroutine) (holder : Option Nat) (i : Nat) : Prop :=
  (beforeShape g.todo = true ∧ (∀ a ∈ g.done, a.isLog = true) ∧ holder ≠ some i) ∨
  (insideShape g.todo = true ∧ g.inSection ∧ holder = some i) ∨
  (afterShape g.todo = true ∧ Action.effect Effect.unlock ∈ g.done ∧ holder ≠ some i)

/-- Every goroutine of the process is consistent with the holder of the lock. -/
def System.consistent (s : System) : Prop :=
  ∀ (i : Nat) (g : Goroutine), s.goroutines[i]? = some g → g.consistent s.holder i

/-! ## Auxiliary facts about the dispatcher -/

theorem index_zero_iff (ps : List String) (c : String) :
    index ps 0 = some c ↔ ∃ rest, ps = c :: rest := by
  cases ps with
  | nil => simp [index]
  | cons p rest => simp [index]

theorem checkParams_ok (cmd : Command) (np : Int) (h : np ≤ (cmd.Params.length : Int)) :
    checkParams cmd np = (true, []) := by
  unfold checkParams
  rw [if_neg (by omega)]

theorem checkParams_short (cmd : Command) (np : Int) (h : (cmd.Params.length : Int) < np) :
    checkParams cmd np = (false, [Effect.log (LogEntry.invalidCommand cmd)]) := by
  unfold checkParams
  rw [if_pos h]

theorem dispatch_join (cmd : Command) (c : String) (jc : Finset String)
    (hm : cmd.Method = "join") (hp : index cmd.Params 0 = some c) :
    dispatch cmd jc = some (insert c jc, [Effect.session (SessionOp.Join c)]) := by
  obtain ⟨m, ps⟩ := cmd
  obtain ⟨rest, hps⟩ := (index_zero_iff ps c).mp hp
  simp only at hm
  subst hm hps
  have h1 := checkParams_ok ⟨"join", c :: rest⟩ 1 (by simp)
  simp [dispatch, h1, index]

theorem dispatch_part (cmd : Command) (c : String) (jc : Finset String)
    (hm : cmd.Method = "part") (hp : index cmd.Params 0 = some c) :
    dispatch cmd jc = some (jc.erase c, [Effect.session (SessionOp.Part c)]) := by
  obtain ⟨m, ps⟩ := cmd
  obtain ⟨rest, hps⟩ := (index_zero_iff ps c).mp hp
  simp only at hm
  subst hm hps
  have h1 := checkParams_ok ⟨"part", c :: rest⟩ 1 (by simp)
  simp [dispatch, h1, index]

theorem dispatch_message (cmd : Command) (jc : Finset String) (t x : String)
    (ps : List String) (hm : cmd.Method = "message") (hp : cmd.Params = t :: x :: ps) :
    dispatch cmd jc = some (jc, [Effect.session (SessionOp.Privmsg t x)]) := by
  obtain ⟨m, qs⟩ := cmd
  simp only at hm hp
  subst hm hp
  have h1 := checkParams_ok ⟨"message", t :: x :: ps⟩ 2 (by simp; omega)
  simp [dispatch, h1, index]

theorem dispatch_notice (cmd : Command) (jc : Finset String) (t x : String)
    (ps : List String) (hm : cmd.Method = "notice") (hp : cmd.Params = t :: x :: ps) :
    dispatch cmd jc = some (jc, [Effect.session (SessionOp.Notice t x)]) := by
  obtain ⟨m, qs⟩ := cmd
  simp only at hm hp
  subst hm hp
  have h1 := checkParams_ok ⟨"notice", t :: x :: ps⟩ 2 (by simp; omega)
  simp [dispatch, h1, index]

theorem dispatch_short (cmd : Command) (jc : Finset String)
    (h : ((cmd.Method = "message" ∨ cmd.Method = "notice") ∧ cmd.Params.length < 2) ∨
      ((cmd.Method = "join" ∨ cmd.Method = "part") ∧ cmd.Params.length < 1)) :
    dispatch cmd jc = some (jc, [Effect.log (LogEntry.invalidCommand cmd)]) := by
  rcases h with ⟨hm, hl⟩ | ⟨hm, hl⟩
  · have h1 := checkParams_short cmd 2 (by omega)
    rcases hm with hm | hm <;> simp [dispatch, hm, h1]
  · have h1 := checkParams_short cmd 1 (by omega)
    rcases hm with hm | hm <;> simp [dispatch, hm, h1]

theorem dispatch_unknown (cmd : Command) (jc : Finset String)
    (h1 : cmd.Method ≠ "message") (h2 : cmd.Method ≠ "notice")
    (h3 : cmd.Method ≠ "join") (h4 : cmd.Method ≠ "part") :
    dispatch cmd jc = some (jc, []) := by
  simp [dispatch, h1, h2, h3, h4]

theorem handleCommand_of_dispatch (debug : Bool) (cmd : Command) (jc jc' : Finset String)
    (out : List Effect) (h : dispatch cmd jc = some (jc', out)) :
    handleCommand debug cmd jc = some (jc',
      [Effect.lock] ++ out ++ (if debug then [Effect.log (LogEntry.handled cmd)] else [])
        ++ [Effect.unlock]) := by
  simp [handleCommand, h]

theorem handleCommandsIter_of_dispatch (debug : Bool) (cmd : Command)
    (jc jc' : Finset String) (out : List Effect) (h : dispatch cmd jc = some (jc', out)) :
    Main.handleCommandsIter debug cmd jc = some (jc',
      [Effect.lock] ++ out ++ [Effect.unlock]
        ++ (if debug then [Effect.log (LogEntry.handled cmd)] else [])) := by
  simp [Main.handleCommandsIter, h]

theorem sessionOps_append (xs ys : List Effect) :
    sessionOps (xs ++ ys) = sessionOps xs ++ sessionOps ys := by
  induction xs with
  | nil => rfl
  | cons x xs ih => cases x <;> simp [sessionOps, ih]

theorem logEntries_append (xs ys : List Effect) :
    logEntries (xs ++ ys) = logEntries xs ++ logEntries ys := by
  induction xs with
  | nil => rfl
  | cons x xs ih => cases x <;> simp [logEntries, ih]

theorem sleeps_append (xs ys : List Effect) :
    sleeps (xs ++ ys) = sleeps xs ++ sleeps ys := by
  induction xs with
  | nil => rfl
  | cons x xs ih => cases x <;> simp [sleeps, ih]

theorem sessionOps_wrap (debug : Bool) (cmd : Command) (out : List Effect) :
    sessionOps ([Effect.lock] ++ out
      ++ (if debug then [Effect.log (LogEntry.handled cmd)] else []) ++ [Effect.unlock])
      = sessionOps out := by
  cases debug <;> simp [sessionOps_append, sessionOps]

theorem sessionOps_wrap_main (debug : Bool) (cmd : Command) (out : List Effect) :
    sessionOps ([Effect.lock] ++ out ++ [Effect.unlock]
      ++ (if debug then [Effect.log (LogEntry.handled cmd)] else []))
      = sessionOps out := by
  cases debug <;> simp [sessionOps_append, sessionOps]

/-! ## C2: join then part -/

/-- C2. For every membership set and every join command with at least one param
(channel `c = Params[0]`), `handleCommand` returns with `c` a member of
`joinedChannels`; dispatching afterwards a part command with the same first
param returns with `c` not a member; membership of every other channel is
unchanged by both dispatches. The dispatch closure of `main.go` reaches the
same two membership sets. -/
theorem join_then_part (debug : Bool) (joinCmd partCmd : Command) (c : String)
    (joinedChannels : Finset String)
    (hj : joinCmd.Method = "join") (hjc : index joinCmd.Params 0 = some c)
    (hp : partCmd.Method = "part") (hpc : index partCmd.Params 0 = some c) :
    ∃ jc1 out1 jc2 out2,
      handleCommand debug joinCmd joinedChannels = some (jc1, out1) ∧ c ∈ jc1 ∧
      handleCommand debug partCmd jc1 = some (jc2, out2) ∧ c ∉ jc2 ∧
      (∀ d, d ≠ c → ((d ∈ jc1 ↔ d ∈ joinedChannels) ∧ (d ∈ jc2 ↔ d ∈ jc1))) ∧
      (∃ o1 o2, Main.handleCommandsIter debug joinCmd joinedChannels = some (jc1, o1) ∧
        Main.handleCommandsIter debug partCmd jc1 = some (jc2, o2)) := by
  have h1 := dispatch_join joinCmd c joinedChannels hj hjc
  have h2 := dispatch_part partCmd c (insert c joinedChannels) hp hpc
  refine ⟨_, _, _, _, handleCommand_of_dispatch debug _ _ _ _ h1, Finset.mem_insert_self _ _,
    handleCommand_of_dispatch debug _ _ _ _ h2, Finset.not_mem_erase _ _, ?_,
    ⟨_, _, handleCommandsIter_of_dispatch debug _ _ _ _ h1,
      handleCommandsIter_of_dispatch debug _ _ _ _ h2⟩⟩
  intro d hd
  simp [Finset.mem_insert, Finset.mem_erase, hd]

/-- Witness of C2: join `#room` then part `#room`, starting from `{"#other"}`. -/
theorem join_then_part_witness :
    ∃ jc1 out1 jc2 out2,
      handleCommand true ⟨"join", ["#room"]⟩ {"#other"} = some (jc1, out1) ∧ "#room" ∈ jc1 ∧
      handleCommand true ⟨"part", ["#room", "bye"]⟩ jc1 = some (jc2, out2) ∧ "#room" ∉ jc2 ∧
      (∀ d, d ≠ "#room" → ((d ∈ jc1 ↔ d ∈ ({"#other"} : Finset String)) ∧ (d ∈ jc2 ↔ d ∈ jc1))) ∧
      (∃ o1 o2, Main.handleCommandsIter true ⟨"join", ["#room"]⟩ {"#other"} = some (jc1, o1) ∧
        Main.handleCommandsIter true ⟨"part", ["#room", "bye"]⟩ jc1 = some (jc2, o2)) :=
  join_then_part true ⟨"join", ["#room"]⟩ ⟨"part", ["#room", "bye"]⟩ "#room" {"#other"}
    rfl rfl rfl rfl

/-! ## C3: invalid commands -/

/-- C3. For every membership set and every invalid command (Method not one of
message, notice, join, part; or message/notice with fewer than 2 params; or
join/part with fewer than 1 param), `handleCommand` returns normally (no index
out of range), with `joinedChannels` unchanged and no session operation among
its effects. The same holds for the dispatch closure of `main.go`. -/
theorem invalid_command_ignored (debug : Bool) (cmd : Command)
    (joinedChannels : Finset String)
    (h : (cmd.Method ≠ "message" ∧ cmd.Method ≠ "notice" ∧ cmd.Method ≠ "join" ∧
          cmd.Method ≠ "part") ∨
      ((cmd.Method = "message" ∨ cmd.Method = "notice") ∧ cmd.Params.length < 2) ∨
      ((cmd.Method = "join" ∨ cmd.Method = "part") ∧ cmd.Params.length < 1)) :
    (∃ out, handleCommand debug cmd joinedChannels = some (joinedChannels, out) ∧
      sessionOps out = []) ∧
    (∃ out, Main.handleCommandsIter debug cmd joinedChannels = some (joinedChannels, out) ∧
      sessionOps out = []) := by
  have hd : ∃ out, dispatch cmd joinedChannels = some (joinedChannels, out) ∧
      sessionOps out = [] := by
    rcases h with ⟨h1, h2, h3, h4⟩ | h
    · exact ⟨_, dispatch_unknown cmd joinedChannels h1 h2 h3 h4, rfl⟩
    · exact ⟨_, dispatch_short cmd joinedChannels h, rfl⟩
  obtain ⟨out, hout, hs⟩ := hd
  refine ⟨⟨_, handleCommand_of_dispatch debug _ _ _ _ hout, ?_⟩,
    ⟨_, handleCommandsIter_of_dispatch debug _ _ _ _ hout, ?_⟩⟩
  · rw [sessionOps_wrap, hs]
  · rw [sessionOps_wrap_main, hs]

/-- Witness of C3: a message command with a single param. -/
theorem invalid_command_ignored_witness :
    (∃ out, handleCommand true ⟨"message", ["#room"]⟩ {"#room"} = some ({"#room"}, out) ∧
      sessionOps out = []) ∧
    (∃ out, Main.handleCommandsIter true ⟨"message", ["#room"]⟩ {"#room"}
        = some ({"#room"}, out) ∧
      sessionOps out = []) :=
  invalid_command_ignored true ⟨"message", ["#room"]⟩ {"#room"}
    (Or.inr (Or.inl ⟨Or.inl rfl, by decide⟩))

/-! ## C7: idempotence of join and part -/

/-- C7. For every membership set `S` and channel `x`, dispatching `join [x]`
twice in succession yields the same membership set as dispatching it once,
namely `S` with `x` added and `x` present exactly once, while each dispatch
issues exactly one session `Join(x)`, two in total. Dispatching `part [x]` twice
yields the same set as dispatching it once. -/
theorem join_part_idempotent (debug : Bool) (S : Finset String) (x : String) :
    (∃ once twice,
      handleCommands debug [⟨"join", [x]⟩] S = some (insert x S, once) ∧
      handleCommands debug [⟨"join", [x]⟩, ⟨"join", [x]⟩] S = some (insert x S, twice) ∧
      (insert x S).val.count x = 1 ∧
      sessionOps once = [SessionOp.Join x] ∧
      twice = once ++ once ∧
      sessionOps twice = [SessionOp.Join x, SessionOp.Join x]) ∧
    (∃ once twice,
      handleCommands debug [⟨"part", [x]⟩] S = some (S.erase x, once) ∧
      handleCommands debug [⟨"part", [x]⟩, ⟨"part", [x]⟩] S = some (S.erase x, twice)) := by
  obtain ⟨oj, hj, hjs⟩ : ∃ o, (∀ T : Finset String,
      handleCommand debug ⟨"join", [x]⟩ T = some (insert x T, o)) ∧
      sessionOps o = [SessionOp.Join x] :=
    ⟨[Effect.lock] ++ [Effect.session (SessionOp.Join x)]
        ++ (if debug then [Effect.log (LogEntry.handled ⟨"join", [x]⟩)] else [])
        ++ [Effect.unlock],
      fun T => handleCommand_of_dispatch debug _ _ _ _
        (dispatch_join ⟨"join", [x]⟩ x T rfl rfl),
      by rw [sessionOps_wrap]; rfl⟩
  obtain ⟨op, hp⟩ : ∃ o, ∀ T : Finset String,
      handleCommand debug ⟨"part", [x]⟩ T = some (T.erase x, o) :=
    ⟨[Effect.lock] ++ [Effect.session (SessionOp.Part x)]
        ++ (if debug then [Effect.log (LogEntry.handled ⟨"part", [x]⟩)] else [])
        ++ [Effect.unlock],
      fun T => handleCommand_of_dispatch debug _ _ _ _
        (dispatch_part ⟨"part", [x]⟩ x T rfl rfl)⟩
  refine ⟨⟨oj, oj ++ oj, ?_, ?_, ?_, hjs, rfl, ?_⟩, ⟨op, op ++ op, ?_, ?_⟩⟩
  · simp [handleCommands, hj]
  · simp [handleCommands, hj]
  · exact Multiset.count_eq_one_of_mem (insert x S).nodup (Finset.mem_insert_self x S)
  · rw [sessionOps_append, hjs]; rfl
  · simp [handleCommands, hp]
  · simp [handleCommands, hp]

/-! ## C8: message and notice -/

/-- C8. For every membership set and every command with Method "message"
(resp. "notice") and at least two params, `handleCommand` returns with
`joinedChannels` unchanged and issues exactly one session operation,
`Privmsg(Params[0], Params[1])` (resp. `Notice(Params[0], Params[1])`). -/
theorem message_notice_sent (debug : Bool) (cmd : Command) (joinedChannels : Finset String)
    (hm : cmd.Method = "message" ∨ cmd.Method = "notice") (hl : 2 ≤ cmd.Params.length) :
    ∃ target text out,
      index cmd.Params 0 = some target ∧ index cmd.Params 1 = some text ∧
      handleCommand debug cmd joinedChannels = some (joinedChannels, out) ∧
      sessionOps out =
        [if cmd.Method = "message" then SessionOp.Privmsg target text
         else SessionOp.Notice target text] := by
  obtain ⟨m, ps⟩ := cmd
  obtain _ | ⟨t, _ | ⟨x, rest⟩⟩ := ps
  · simp at hl
  · simp at hl
  · have h0 : index (t :: x :: rest) 0 = some t := by simp [index]
    have h1 : index (t :: x :: rest) 1 = some x := by simp [index]
    rcases hm with hm | hm
    · simp only at hm
      subst hm
      refine ⟨t, x, _, h0, h1, handleCommand_of_dispatch debug _ _ _ _
        (dispatch_message _ joinedChannels t x rest rfl rfl), ?_⟩
      rw [sessionOps_wrap]; rfl
    · simp only at hm
      subst hm
      refine ⟨t, x, _, h0, h1, handleCommand_of_dispatch debug _ _ _ _
        (dispatch_notice _ joinedChannels t x rest rfl rfl), ?_⟩
      rw [sessionOps_wrap]; rfl

/-- Witness of C8: Method "message" with Params `["#room", "hi"]` sends "hi" to
"#room" and changes no membership. -/
theorem message_notice_sent_witness :
    2 ≤ (⟨"message", ["#room", "hi"]⟩ : Command).Params.length ∧
    ∃ out, handleCommand false ⟨"message", ["#room", "hi"]⟩ ∅ = some (∅, out) ∧
      sessionOps out = [SessionOp.Privmsg "#room" "hi"] := by
  obtain ⟨t, x, out, h0, h1, h, hs⟩ :=
    message_notice_sent false ⟨"message", ["#room", "hi"]⟩ ∅ (Or.inl rfl) (by decide)
  simp [index] at h0 h1
  subst h0 h1
  exact ⟨by decide, out, h, by simpa using hs⟩

theorem warnings_append (xs ys : List Effect) :
    warnings (xs ++ ys) = warnings xs ++ warnings ys := by
  simp [warnings, logEntries_append]

theorem warnings_wrap (debug : Bool) (cmd : Command) (out : List Effect) :
    warnings ([Effect.lock] ++ out
      ++ (if debug then [Effect.log (LogEntry.handled cmd)] else []) ++ [Effect.unlock])
      = warnings out := by
  cases debug <;> simp [warnings, logEntries_append, logEntries, LogEntry.isWarning]

theorem warnings_wrap_main (debug : Bool) (cmd : Command) (out : List Effect) :
    warnings ([Effect.lock] ++ out ++ [Effect.unlock]
      ++ (if debug then [Effect.log (LogEntry.handled cmd)] else []))
      = warnings out := by
  cases debug <;> simp [warnings, logEntries_append, logEntries, LogEntry.isWarning]

/-! ## C6: which discarded commands are reported -/

/-- C6, counterexample. The command with Method "kick" and Params
`["#room", "user"]` is discarded without any warning log entry, with the debug
flag clear (no log line at all) and with it set (only the debug line
`handled`), in both variants of the dispatcher. -/
theorem unknown_method_not_reported :
    handleCommand false ⟨"kick", ["#room", "user"]⟩ ∅
      = some (∅, [Effect.lock, Effect.unlock]) ∧
    handleCommand true ⟨"kick", ["#room", "user"]⟩ ∅
      = some (∅, [Effect.lock, Effect.log (LogEntry.handled ⟨"kick", ["#room", "user"]⟩),
          Effect.unlock]) ∧
    warnings [Effect.lock, Effect.unlock] = [] ∧
    warnings [Effect.lock, Effect.log (LogEntry.handled ⟨"kick", ["#room", "user"]⟩),
      Effect.unlock] = [] ∧
    Main.handleCommandsIter false ⟨"kick", ["#room", "user"]⟩ ∅
      = some (∅, [Effect.lock, Effect.unlock]) ∧
    Main.handleCommandsIter true ⟨"kick", ["#room", "user"]⟩ ∅
      = some (∅, [Effect.lock, Effect.unlock,
          Effect.log (LogEntry.handled ⟨"kick", ["#room", "user"]⟩)]) := by
  decide

/-- C6, amended. A discarded command is reported exactly when its Method is
recognized: for every command with Method message, notice, join or part and
fewer params than required, dispatch writes one warning log entry (`invalid
command`), whatever the debug flag; for every command whose Method is not one
of the four, dispatch writes no warning log entry. In both cases the command
is discarded: the membership set is unchanged and no session operation is
issued. -/
theorem discarded_command_reporting (debug : Bool) (cmd : Command)
    (joinedChannels : Finset String)
    (h : (cmd.Method ≠ "message" ∧ cmd.Method ≠ "notice" ∧ cmd.Method ≠ "join" ∧
          cmd.Method ≠ "part") ∨
      ((cmd.Method = "message" ∨ cmd.Method = "notice") ∧ cmd.Params.length < 2) ∨
      ((cmd.Method = "join" ∨ cmd.Method = "part") ∧ cmd.Params.length < 1)) :
    (∃ out, handleCommand debug cmd joinedChannels = some (joinedChannels, out) ∧
      sessionOps out = [] ∧
      warnings out =
        if cmd.Method = "message" ∨ cmd.Method = "notice" ∨ cmd.Method = "join" ∨
            cmd.Method = "part"
        then [LogEntry.invalidCommand cmd] else []) ∧
    (∃ out, Main.handleCommandsIter debug cmd joinedChannels = some (joinedChannels, out) ∧
      sessionOps out = [] ∧
      warnings out =
        if cmd.Method = "message" ∨ cmd.Method = "notice" ∨ cmd.Method = "join" ∨
            cmd.Method = "part"
        then [LogEntry.invalidCommand cmd] else []) := by
  have hd : ∃ out, dispatch cmd joinedChannels = some (joinedChannels, out) ∧
      sessionOps out = [] ∧
      warnings out =
        if cmd.Method = "message" ∨ cmd.Method = "notice" ∨ cmd.Method = "join" ∨
            cmd.Method = "part"
        then [LogEntry.invalidCommand cmd] else [] := by
    rcases h with ⟨h1, h2, h3, h4⟩ | h
    · refine ⟨_, dispatch_unknown cmd joinedChannels h1 h2 h3 h4, rfl, ?_⟩
      rw [if_neg (by simp [h1, h2, h3, h4])]
      rfl
    · refine ⟨_, dispatch_short cmd joinedChannels h, rfl, ?_⟩
      have hr : cmd.Method = "message" ∨ cmd.Method = "notice" ∨ cmd.Method = "join" ∨
          cmd.Method = "part" := by
        rcases h with ⟨hm | hm, _⟩ | ⟨hm | hm, _⟩ <;> simp [hm]
      rw [if_pos hr]
      rfl
  obtain ⟨out, hout, hs, hw⟩ := hd
  refine ⟨⟨_, handleCommand_of_dispatch debug _ _ _ _ hout, ?_, ?_⟩,
    ⟨_, handleCommandsIter_of_dispatch debug _ _ _ _ hout, ?_, ?_⟩⟩
  · rw [sessionOps_wrap, hs]
  · rw [warnings_wrap, hw]
  · rw [sessionOps_wrap_main, hs]
  · rw [warnings_wrap_main, hw]

/-- Witness of C6 (amended): a join command without params is reported with
one warning, with the debug flag clear. -/
theorem discarded_command_reporting_witness :
    (∃ out, handleCommand false ⟨"join", []⟩ {"#room"} = some ({"#room"}, out) ∧
      sessionOps out = [] ∧
      warnings out = [LogEntry.invalidCommand ⟨"join", []⟩]) ∧
    (∃ out, Main.handleCommandsIter false ⟨"join", []⟩ {"#room"} = some ({"#room"}, out) ∧
      sessionOps out = [] ∧
      warnings out = [LogEntry.invalidCommand ⟨"join", []⟩]) := by
  simpa using discarded_command_reporting false ⟨"join", []⟩ {"#room"}
    (Or.inr (Or.inr ⟨Or.inl rfl, by decide⟩))

theorem logEntries_decodeError_mem (debug : Bool) (payload : Payload) (cmd : Command)
    (err : String) :
    LogEntry.decodeError err ∈ logEntries
      ((if debug then [Effect.log (LogEntry.recv payload)] else [])
        ++ [Effect.log (LogEntry.decodeError err)]
        ++ (if debug then [Effect.log (LogEntry.recvParsed cmd)] else [])
        ++ [Effect.send cmd]) := by
  cases debug <;> simp [logEntries]

theorem sends_recv (debug : Bool) (payload : Payload) (cmd : Command) (ws : List Effect)
    (hws : sends ws = []) :
    sends ((if debug then [Effect.log (LogEntry.recv payload)] else [])
        ++ ws
        ++ (if debug then [Effect.log (LogEntry.recvParsed cmd)] else [])
        ++ [Effect.send cmd]) = [cmd] := by
  have happ : ∀ xs ys : List Effect, sends (xs ++ ys) = sends xs ++ sends ys := by
    intro xs ys
    induction xs with
    | nil => rfl
    | cons x xs ih => cases x <;> simp [sends, ih]
  cases debug <;> simp [happ, hws, sends]

/-! ## C5: what the receive loop forwards after a decode error -/

/-- C5, counterexample. On the datagram `{"Method":"join","Params":["#room",1]}`
decoding reports an error, yet `recvUdp` sends on `cmdChan` the command the
decoder had populated, Method "join" with Params `["#room", ""]`, not the
zero-value Command; dispatching it issues `Join("#room")` and adds "#room" to
`joinedChannels`. -/
theorem decode_error_forwards_populated_command :
    (typeErrorUnmarshal (typeErrorPayload.take bufferSize) Command.zero).2 ≠ none ∧
    recvUdpIter false typeErrorUnmarshal (Except.ok typeErrorPayload)
      = (some ⟨"join", ["#room", ""]⟩,
          [Effect.log (LogEntry.decodeError
              "json: cannot unmarshal number into Go value of type string"),
            Effect.send ⟨"join", ["#room", ""]⟩]) ∧
    (⟨"join", ["#room", ""]⟩ : Command) ≠ Command.zero ∧
    (recvUdp false typeErrorUnmarshal [Except.ok typeErrorPayload]).1
      = [⟨"join", ["#room", ""]⟩] ∧
    handleCommands false (recvUdp false typeErrorUnmarshal [Except.ok typeErrorPayload]).1 ∅
      = some ({"#room"},
          [Effect.lock, Effect.session (SessionOp.Join "#room"), Effect.unlock]) := by
  decide

/-- C5, amended. For every received payload on which decoding reports an
error, `recvUdp` writes the warning, sends on `cmdChan` exactly the Command as
the decoder left it, starting from the zero value, and goes on with the next
read; whenever the decoder left
it at the zero value, dispatching what was sent performs no session operation
and no membership mutation (in both variants of the dispatcher). -/
theorem decode_error_forwarding (debug : Bool) (unmarshal : Unmarshal) (dgram : Payload)
    (joinedChannels : Finset String) (err : String)
    (herr : (unmarshal (dgram.take bufferSize) Command.zero).2 = some err) :
    ∃ cmd out,
      cmd = (unmarshal (dgram.take bufferSize) Command.zero).1 ∧
      recvUdpIter debug unmarshal (Except.ok dgram) = (some cmd, out) ∧
      (∀ rest, (recvUdp debug unmarshal (Except.ok dgram :: rest)).1
        = cmd :: (recvUdp debug unmarshal rest).1) ∧
      LogEntry.decodeError err ∈ warnings out ∧
      sends out = [cmd] ∧
      (cmd = Command.zero →
        (∃ o, handleCommand debug cmd joinedChannels = some (joinedChannels, o) ∧
          sessionOps o = []) ∧
        (∃ o, Main.handleCommandsIter debug cmd joinedChannels = some (joinedChannels, o) ∧
          sessionOps o = [])) := by
  refine ⟨_,
    (if debug then [Effect.log (LogEntry.recv (dgram.take bufferSize))] else [])
      ++ [Effect.log (LogEntry.decodeError err)]
      ++ (if debug then [Effect.log (LogEntry.recvParsed
            (unmarshal (dgram.take bufferSize) Command.zero).1)] else [])
      ++ [Effect.send (unmarshal (dgram.take bufferSize) Command.zero).1],
    rfl, ?_, ?_, ?_, ?_, ?_⟩
  · simp only [recvUdpIter, herr]
  · intro rest
    simp only [recvUdp, recvUdpIter]
  · simp only [warnings, List.mem_filter]
    exact ⟨logEntries_decodeError_mem debug _ _ err, rfl⟩
  · exact sends_recv debug _ _ [Effect.log (LogEntry.decodeError err)] rfl
  · intro hz
    rw [hz]
    have hd := dispatch_unknown Command.zero joinedChannels
      (by decide) (by decide) (by decide) (by decide)
    refine ⟨⟨_, handleCommand_of_dispatch debug _ _ _ _ hd, ?_⟩,
      ⟨_, handleCommandsIter_of_dispatch debug _ _ _ _ hd, ?_⟩⟩
    · rw [sessionOps_wrap]; rfl
    · rw [sessionOps_wrap_main]; rfl

/-- Witness of C5 (amended): the truncated datagram `{"Method":` is rejected
with the target untouched; the zero-value Command is sent and dispatching it
does nothing. -/
theorem decode_error_forwarding_witness :
    (syntaxErrorUnmarshal (truncatedPayload.take bufferSize) Command.zero).2
      = some "unexpected end of JSON input" ∧
    ∃ out,
      recvUdpIter false syntaxErrorUnmarshal (Except.ok truncatedPayload)
        = (some Command.zero, out) ∧
      (∀ rest, (recvUdp false syntaxErrorUnmarshal (Except.ok truncatedPayload :: rest)).1
        = Command.zero :: (recvUdp false syntaxErrorUnmarshal rest).1) ∧
      LogEntry.decodeError "unexpected end of JSON input" ∈ warnings out ∧
      sends out = [Command.zero] ∧
      (∃ o, handleCommand false Command.zero {"#room"} = some ({"#room"}, o) ∧
        sessionOps o = []) ∧
      (∃ o, Main.handleCommandsIter false Command.zero {"#room"} = some ({"#room"}, o) ∧
        sessionOps o = []) := by
  obtain ⟨cmd, out, hc, hr, hl, hw, hs, hz⟩ :=
    decode_error_forwarding false syntaxErrorUnmarshal truncatedPayload {"#room"}
      "unexpected end of JSON input" rfl
  have hc' : cmd = Command.zero := hc
  subst hc'
  exact ⟨rfl, out, hr, hl, hw, hs, hz rfl⟩

theorem pacing_append (xs ys : List Effect) :
    pacing (xs ++ ys) = pacing xs ++ pacing ys := by
  induction xs with
  | nil => rfl
  | cons x xs ih => cases x <;> simp [pacing, ih]

theorem sessionOps_rounds (reconnect : Int) (n : Nat) :
    sessionOps (rounds reconnect n) = List.replicate n SessionOp.Connect := by
  induction n with
  | zero => rfl
  | succ n ih => simp [rounds, sessionOps, ih, List.replicate_succ]

theorem sleeps_rounds (reconnect : Int) (n : Nat) :
    sleeps (rounds reconnect n) = List.replicate n reconnect := by
  induction n with
  | zero => rfl
  | succ n ih => simp [rounds, sleeps, ih, List.replicate_succ]

theorem sessionOps_pacing (out : List Effect) : sessionOps (pacing out) = sessionOps out := by
  induction out with
  | nil => rfl
  | cons x xs ih => cases x <;> simp [pacing, sessionOps, ih]

theorem sleeps_pacing (out : List Effect) : sleeps (pacing out) = sleeps out := by
  induction out with
  | nil => rfl
  | cons x xs ih => cases x <;> simp [pacing, sleeps, ih]

theorem retryLoop_succ_none (reconnect : Int) (connect : Nat → Option String)
    (fuel k : Nat) (h : connect k = none) :
    retryLoop reconnect connect (fuel + 1) k
      = (attempt reconnect ++ [Effect.log LogEntry.reconnected], true) := by
  simp only [retryLoop, h]

theorem retryLoop_succ_some (reconnect : Int) (connect : Nat → Option String)
    (fuel k : Nat) (err : String) (h : connect k = some err) :
    retryLoop reconnect connect (fuel + 1) k
      = (attempt reconnect ++ [Effect.log (LogEntry.connectError err)]
          ++ (retryLoop reconnect connect fuel (k + 1)).1,
         (retryLoop reconnect connect fuel (k + 1)).2) := by
  simp only [retryLoop, h]

/-- While the connect attempts fail the loop keeps going: after `m` iterations
it has made `m` attempts, each after one sleep, and has not returned. -/
theorem retryLoop_pending (reconnect : Int) (connect : Nat → Option String) :
    ∀ (m k : Nat), (∀ i, i < m → connect (k + i) ≠ none) →
      (retryLoop reconnect connect m k).2 = false ∧
      pacing (retryLoop reconnect connect m k).1 = rounds reconnect m
  | 0, _, _ => ⟨rfl, rfl⟩
  | m + 1, k, hfail => by
    obtain ⟨err, herr⟩ := Option.ne_none_iff_exists'.mp (hfail 0 (Nat.succ_pos m))
    have ih := retryLoop_pending reconnect connect m (k + 1) (fun i hi => by
      have := hfail (i + 1) (Nat.succ_lt_succ hi)
      rwa [show k + (i + 1) = k + 1 + i by omega] at this)
    rw [Nat.add_zero] at herr
    rw [retryLoop_succ_some reconnect connect m k err herr]
    refine ⟨ih.1, ?_⟩
    rw [pacing_append, ih.2]
    rfl

/-- Once an attempt succeeds the loop returns, whatever fuel is left over. -/
theorem retryLoop_returns (reconnect : Int) (connect : Nat → Option String) :
    ∀ (n fuel k : Nat), (∀ i, i < n → connect (k + i) ≠ none) → connect (k + n) = none →
      n < fuel →
      retryLoop reconnect connect fuel k = retryLoop reconnect connect (n + 1) k ∧
      (retryLoop reconnect connect (n + 1) k).2 = true ∧
      pacing (retryLoop reconnect connect (n + 1) k).1 = rounds reconnect (n + 1)
  | _, 0, _, _, _, hlt => absurd hlt (Nat.not_lt_zero _)
  | 0, fuel + 1, k, _, hok, _ => by
    rw [Nat.add_zero] at hok
    rw [retryLoop_succ_none reconnect connect fuel k hok,
      retryLoop_succ_none reconnect connect 0 k hok]
    exact ⟨rfl, rfl, rfl⟩
  | n + 1, fuel + 1, k, hfail, hok, hlt => by
    obtain ⟨err, herr⟩ := Option.ne_none_iff_exists'.mp (hfail 0 (Nat.succ_pos n))
    have ih := retryLoop_returns reconnect connect n fuel (k + 1) (fun i hi => by
      have := hfail (i + 1) (Nat.succ_lt_succ hi)
      rwa [show k + (i + 1) = k + 1 + i by omega] at this)
      (by rwa [show k + (n + 1) = k + 1 + n by omega] at hok) (Nat.lt_of_succ_lt_succ hlt)
    rw [Nat.add_zero] at herr
    rw [retryLoop_succ_some reconnect connect fuel k err herr,
      retryLoop_succ_some reconnect connect (n + 1) k err herr]
    refine ⟨by rw [ih.1], ih.2.1, ?_⟩
    rw [pacing_append, ih.2.2]
    rfl

theorem handleDisconnects_eq (reconnect : Int) (connect : Nat → Option String) (fuel : Nat)
    (jc : Finset String) :
    handleDisconnects reconnect connect fuel jc =
      if (retryLoop reconnect connect fuel 0).2 then
        some (jc, [Effect.log LogEntry.disconnected, Effect.lock]
          ++ (retryLoop reconnect connect fuel 0).1 ++ [Effect.unlock])
      else none := by
  unfold handleDisconnects
  rcases retryLoop reconnect connect fuel 0 with ⟨out, _ | _⟩ <;> rfl

/-! ## C9: the reconnect retry loop -/

/-- C9. For every `n`, if the first `n` connect attempts after a disconnect
fail and attempt `n + 1` succeeds, `handleDisconnects` returns (given fuel for
`n + 1` iterations) having made exactly `n + 1` calls of `conn.Connect`, each
preceded by exactly one sleep of the reconnect interval, and leaves
`joinedChannels` as it was; before that success it never gives up: after any
`m ≤ n` iterations it has made `m` attempts and has not returned. The
`irc.DISCONNECTED` handler of `main.go` is the same loop at the constant
`reconnectInterval`. -/
theorem reconnect_retry_loop (reconnect : Int) (connect : Nat → Option String) (n : Nat)
    (joinedChannels : Finset String)
    (hfail : ∀ i, i < n → connect i ≠ none) (hok : connect n = none) :
    (∃ out,
      (∀ fuel, n < fuel →
        handleDisconnects reconnect connect fuel joinedChannels
          = some (joinedChannels, out)) ∧
      pacing out = rounds reconnect (n + 1) ∧
      sessionOps out = List.replicate (n + 1) SessionOp.Connect ∧
      sleeps out = List.replicate (n + 1) reconnect) ∧
    (∀ m, m ≤ n →
      handleDisconnects reconnect connect m joinedChannels = none ∧
      (retryLoop reconnect connect m 0).2 = false ∧
      pacing (retryLoop reconnect connect m 0).1 = rounds reconnect m) ∧
    (∀ fuel, Main.disconnectedHandler connect fuel joinedChannels
      = handleDisconnects Main.reconnectInterval connect fuel joinedChannels) := by
  have hret := fun fuel => retryLoop_returns reconnect connect n fuel 0
    (fun i hi => by rw [Nat.zero_add]; exact hfail i hi) (by rw [Nat.zero_add]; exact hok)
  have hp : pacing ([Effect.log LogEntry.disconnected, Effect.lock]
      ++ (retryLoop reconnect connect (n + 1) 0).1 ++ [Effect.unlock])
      = rounds reconnect (n + 1) := by
    rw [pacing_append, pacing_append, ((hret (n + 1)) (Nat.lt_succ_self n)).2.2]
    simp [pacing]
  refine ⟨⟨[Effect.log LogEntry.disconnected, Effect.lock]
      ++ (retryLoop reconnect connect (n + 1) 0).1 ++ [Effect.unlock], ?_, hp, ?_, ?_⟩,
    ?_, fun _ => rfl⟩
  · intro fuel hlt
    obtain ⟨h1, h2, _⟩ := hret fuel hlt
    rw [handleDisconnects_eq, h1, h2]
    rfl
  · rw [← sessionOps_pacing, hp, sessionOps_rounds]
  · rw [← sleeps_pacing, hp, sleeps_rounds]
  · intro m hm
    obtain ⟨h1, h2⟩ := retryLoop_pending reconnect connect m 0
      (fun i hi => by rw [Nat.zero_add]; exact hfail i (Nat.lt_of_lt_of_le hi hm))
    refine ⟨?_, h1, h2⟩
    rw [handleDisconnects_eq, h1]
    rfl

/-- Witness of C9: two refused attempts, then a success, at an interval of 60 s. -/
theorem reconnect_retry_loop_witness :
    ((∀ i, i < 2 → refusedTwice i ≠ none) ∧ refusedTwice 2 = none) ∧
    (∃ out,
      (∀ fuel, 2 < fuel →
        handleDisconnects 60000000000 refusedTwice fuel {"#room"} = some ({"#room"}, out)) ∧
      pacing out = rounds 60000000000 (2 + 1) ∧
      sessionOps out = List.replicate (2 + 1) SessionOp.Connect ∧
      sleeps out = List.replicate (2 + 1) 60000000000) ∧
    (∀ m, m ≤ 2 →
      handleDisconnects 60000000000 refusedTwice m {"#room"} = none ∧
      (retryLoop 60000000000 refusedTwice m 0).2 = false ∧
      pacing (retryLoop 60000000000 refusedTwice m 0).1 = rounds 60000000000 m) ∧
    (∀ fuel, Main.disconnectedHandler refusedTwice fuel {"#room"}
      = handleDisconnects Main.reconnectInterval refusedTwice fuel {"#room"}) :=
  have h1 : ∀ i, i < 2 → refusedTwice i ≠ none := fun i hi => by simp [refusedTwice, hi]
  have h2 : refusedTwice 2 = none := rfl
  ⟨⟨h1, h2⟩, reconnect_retry_loop 60000000000 refusedTwice 2 {"#room"} h1 h2⟩

theorem sessionOps_rejoin (ks : List String) :
    sessionOps (rejoin ks) = ks.map SessionOp.Join := by
  induction ks with
  | nil => rfl
  | cons k ks ih => simp [rejoin, sessionOps, ih]

theorem sessionOps_handleReconnects (order : RangeOrder) (S : Finset String) :
    sessionOps (handleReconnects order S).2 = (order.keys S).map SessionOp.Join := by
  simp [handleReconnects, sessionOps_append, sessionOps, sessionOps_rejoin]

theorem count_join_map (ks : List String) (c : String) :
    (ks.map SessionOp.Join).count (SessionOp.Join c) = ks.count c := by
  induction ks with
  | nil => rfl
  | cons k ks ih =>
    by_cases h : k = c
    · subst h; simp [ih]
    · have h' : SessionOp.Join k ≠ SessionOp.Join c := fun e => h (SessionOp.Join.inj e)
      simp [List.count_cons, h, h', ih]

theorem step_disconnect (debug : Bool) (reconnect : Int) (errs : List String)
    (jc : Finset String) :
    ∃ out, step debug reconnect (Event.disconnect errs) jc = some (jc, out) := by
  have h := retryLoop_returns reconnect (fun k => errs[k]?) errs.length (errs.length + 1) 0
    (fun i hi => by
      rw [Nat.zero_add]
      simp [List.getElem?_eq_getElem hi])
    (by simp) (Nat.lt_succ_self _)
  refine ⟨[Effect.log LogEntry.disconnected, Effect.lock]
    ++ (retryLoop reconnect (fun k => errs[k]?) (errs.length + 1) 0).1 ++ [Effect.unlock], ?_⟩
  simp only [step]
  rw [handleDisconnects_eq, h.2.1]
  rfl

/-! ## C4: reconnection recovery -/

/-- C4. For every membership set `S` held when the session-established event
fires, and every order in which the map is ranged over, `handleReconnects`
leaves `S` unchanged and its session operations are exactly one `Join` per
visited key, where the visited keys are the channels of `S`, each once (so the
number of `Join(c)` issued is 1 for `c` in `S` and 0 otherwise). The `irc.INIT`
handler of `main.go` is the same function. Consequently, after dispatching
join `["#room"]` from the empty set and a disconnect that ends in a successful
reconnect, the recovery issues exactly one session operation, `Join("#room")`. -/
theorem reconnect_recovery (order : RangeOrder) (S : Finset String) (debug : Bool)
    (reconnect : Int) (errs : List String) :
    (handleReconnects order S).1 = S ∧
    (∃ visited : List String, Multiset.ofList visited = S.val ∧
      sessionOps (handleReconnects order S).2 = visited.map SessionOp.Join) ∧
    (∀ c, (sessionOps (handleReconnects order S).2).count (SessionOp.Join c)
      = if c ∈ S then 1 else 0) ∧
    Main.initHandler order S = handleReconnects order S ∧
    (∃ jc1 out1 jc2 out2,
      handleCommand debug ⟨"join", ["#room"]⟩ ∅ = some (jc1, out1) ∧
      step debug reconnect (Event.disconnect errs) jc1 = some (jc2, out2) ∧
      (handleReconnects order jc2).1 = jc2 ∧
      sessionOps (handleReconnects order jc2).2 = [SessionOp.Join "#room"]) := by
  refine ⟨rfl, ⟨order.keys S, order.enumerates S, sessionOps_handleReconnects order S⟩,
    ?_, rfl, ?_⟩
  · intro c
    rw [sessionOps_handleReconnects, count_join_map, ← Multiset.coe_count,
      order.enumerates S]
    by_cases hc : c ∈ S
    · rw [if_pos hc]
      exact Multiset.count_eq_one_of_mem S.nodup hc
    · rw [if_neg hc]
      exact Multiset.count_eq_zero_of_not_mem hc
  · obtain ⟨out2, h2⟩ := step_disconnect debug reconnect errs {"#room"}
    refine ⟨{"#room"}, _, {"#room"}, out2,
      handleCommand_of_dispatch debug _ _ _ _
        (dispatch_join ⟨"join", ["#room"]⟩ "#room" ∅ rfl rfl), h2, rfl, ?_⟩
    rw [sessionOps_handleReconnects]
    have hk : order.keys {"#room"} = ["#room"] := by
      have := order.enumerates {"#room"}
      rw [Finset.singleton_val] at this
      exact Multiset.coe_eq_singleton.mp this
    rw [hk]
    rfl

theorem dispatch_other (cmd : Command) (jc : Finset String)
    (hj : cmd.Method ≠ "join") (hp : cmd.Method ≠ "part") :
    ∃ out, dispatch cmd jc = some (jc, out) := by
  by_cases hm : cmd.Method = "message"
  · by_cases hl : cmd.Params.length < 2
    · exact ⟨_, dispatch_short cmd jc (Or.inl ⟨Or.inl hm, hl⟩)⟩
    · obtain ⟨m, ps⟩ := cmd
      obtain _ | ⟨t, _ | ⟨x, rest⟩⟩ := ps
      · simp at hl
      · simp at hl
      · exact ⟨_, dispatch_message _ jc t x rest hm rfl⟩
  · by_cases hn : cmd.Method = "notice"
    · by_cases hl : cmd.Params.length < 2
      · exact ⟨_, dispatch_short cmd jc (Or.inl ⟨Or.inr hn, hl⟩)⟩
      · obtain ⟨m, ps⟩ := cmd
        obtain _ | ⟨t, _ | ⟨x, rest⟩⟩ := ps
        · simp at hl
        · simp at hl
        · exact ⟨_, dispatch_notice _ jc t x rest hn rfl⟩
    · exact ⟨_, dispatch_unknown cmd jc hm hn hj hp⟩

/-- Membership after one dispatch. -/
theorem dispatch_mem (cmd : Command) (jc : Finset String) :
    ∃ jc1 out, dispatch cmd jc = some (jc1, out) ∧
      ∀ c, c ∈ jc1 ↔
        (cmd.Method = "join" ∧ index cmd.Params 0 = some c) ∨
        (¬ cmd.isJoinOrPartOf c ∧ c ∈ jc) := by
  obtain ⟨m, ps⟩ := cmd
  by_cases hj : m = "join"
  · cases ps with
    | nil =>
      refine ⟨jc, _, dispatch_short ⟨m, []⟩ jc (Or.inr ⟨Or.inl hj, by simp⟩), ?_⟩
      intro c
      simp [Command.isJoinOrPartOf, index]
    | cons p ps =>
      have hi : index (p :: ps) 0 = some p := by simp [index]
      refine ⟨_, _, dispatch_join ⟨m, p :: ps⟩ p jc hj hi, ?_⟩
      intro c
      simp only [Command.isJoinOrPartOf, hi, hj, Finset.mem_insert, Option.some.injEq]
      constructor
      · rintro (h | h)
        · exact Or.inl ⟨trivial, h.symm⟩
        · by_cases hpc : p = c
          · exact Or.inl ⟨trivial, hpc⟩
          · exact Or.inr ⟨fun hh => hpc hh.2, h⟩
      · rintro (h | h)
        · exact Or.inl h.2.symm
        · exact Or.inr h.2
  · by_cases hp : m = "part"
    · cases ps with
      | nil =>
        refine ⟨jc, _, dispatch_short ⟨m, []⟩ jc (Or.inr ⟨Or.inr hp, by simp⟩), ?_⟩
        intro c
        simp [Command.isJoinOrPartOf, index]
      | cons p ps =>
        have hi : index (p :: ps) 0 = some p := by simp [index]
        refine ⟨_, _, dispatch_part ⟨m, p :: ps⟩ p jc hp hi, ?_⟩
        intro c
        simp only [Command.isJoinOrPartOf, hi, hj, hp, Finset.mem_erase, Option.some.injEq]
        constructor
        · rintro ⟨h1, h2⟩
          exact Or.inr ⟨fun hh => h1 hh.2.symm, h2⟩
        · rintro (h | h)
          · exact absurd h.1 (by simp)
          · exact ⟨fun hh => h.1 ⟨Or.inr trivial, hh.symm⟩, h.2⟩
    · obtain ⟨out, hout⟩ := dispatch_other ⟨m, ps⟩ jc hj hp
      refine ⟨jc, out, hout, ?_⟩
      intro c
      simp [Command.isJoinOrPartOf, hj, hp]

/-- Membership after the handler of one event. -/
theorem step_mem (debug : Bool) (reconnect : Int) (ev : Event) (jc : Finset String) :
    ∃ jc1 out, step debug reconnect ev jc = some (jc1, out) ∧
      ∀ c, c ∈ jc1 ↔
        (∃ cmd, ev = Event.command cmd ∧ cmd.Method = "join" ∧ index cmd.Params 0 = some c) ∨
        ((∀ cmd, ev = Event.command cmd → ¬ cmd.isJoinOrPartOf c) ∧ c ∈ jc) := by
  cases ev with
  | command cmd =>
    obtain ⟨jc1, out, hd, hmem⟩ := dispatch_mem cmd jc
    refine ⟨jc1, _, handleCommand_of_dispatch debug _ _ _ _ hd, ?_⟩
    intro c
    rw [hmem c]
    simp
  | disconnect errs =>
    obtain ⟨out, h⟩ := step_disconnect debug reconnect errs jc
    exact ⟨jc, out, h, fun c => by simp⟩
  | established order =>
    exact ⟨jc, _, rfl, fun c => by simp⟩

theorem noJoinPart_cons (ev : Event) (rest : List Event) (c : String) :
    noJoinPart (ev :: rest) c ↔
      (∀ cmd, ev = Event.command cmd → ¬ cmd.isJoinOrPartOf c) ∧ noJoinPart rest c := by
  unfold noJoinPart
  constructor
  · intro h
    exact ⟨fun cmd he => h cmd (by rw [he]; exact List.mem_cons_self _ _),
      fun cmd hm => h cmd (List.mem_cons_of_mem _ hm)⟩
  · rintro ⟨h1, h2⟩ cmd hm
    rcases List.mem_cons.mp hm with he | hm
    · exact h1 cmd he.symm
    · exact h2 cmd hm

theorem lastIsJoin_cons (ev : Event) (rest : List Event) (c : String) :
    lastIsJoin (ev :: rest) c ↔
      lastIsJoin rest c ∨
      ((∃ cmd, ev = Event.command cmd ∧ cmd.Method = "join" ∧ index cmd.Params 0 = some c) ∧
        noJoinPart rest c) := by
  unfold lastIsJoin
  constructor
  · rintro ⟨before, cmd, after, he, hm, hi, hn⟩
    cases before with
    | nil =>
      rw [List.nil_append] at he
      obtain ⟨h1, h2⟩ := List.cons.inj he
      subst h2
      exact Or.inr ⟨⟨cmd, h1, hm, hi⟩, hn⟩
    | cons b before =>
      rw [List.cons_append] at he
      obtain ⟨_, h2⟩ := List.cons.inj he
      exact Or.inl ⟨before, cmd, after, h2, hm, hi, hn⟩
  · rintro (⟨before, cmd, after, he, hm, hi, hn⟩ | ⟨⟨cmd, he, hm, hi⟩, hn⟩)
    · exact ⟨ev :: before, cmd, after, by rw [he, List.cons_append], hm, hi, hn⟩
    · exact ⟨[], cmd, rest, by rw [he, List.nil_append], hm, hi, hn⟩

/-- The membership invariant from an arbitrary initial set. -/
theorem run_mem (debug : Bool) (reconnect : Int) :
    ∀ (events : List Event) (jc0 : Finset String),
      ∃ jc out, run debug reconnect events jc0 = some (jc, out) ∧
        ∀ c, c ∈ jc ↔ lastIsJoin events c ∨ (noJoinPart events c ∧ c ∈ jc0)
  | [], jc0 => by
    refine ⟨jc0, [], rfl, fun c => ?_⟩
    constructor
    · intro h
      exact Or.inr ⟨fun cmd hm => absurd hm (List.not_mem_nil _), h⟩
    · rintro (⟨before, cmd, after, he, _⟩ | h)
      · exact absurd he (by simp)
      · exact h.2
  | ev :: rest, jc0 => by
    obtain ⟨jc1, out1, h1, hm1⟩ := step_mem debug reconnect ev jc0
    obtain ⟨jc, out, h2, hm2⟩ := run_mem debug reconnect rest jc1
    refine ⟨jc, out1 ++ out, by simp [run, h1, h2], fun c => ?_⟩
    rw [hm2 c, hm1 c, lastIsJoin_cons, noJoinPart_cons]
    generalize lastIsJoin rest c = A
    generalize noJoinPart rest c = B
    generalize (∃ cmd, ev = Event.command cmd ∧ cmd.Method = "join" ∧
      index cmd.Params 0 = some c) = J
    generalize (∀ cmd, ev = Event.command cmd → ¬ cmd.isJoinOrPartOf c) = N
    tauto

/-! ## C1: the membership invariant over traces -/

/-- C1. Starting from the empty membership set, for every finite sequence of
events (dispatched commands, disconnects, session-established events) the
handlers all return and, for every channel name `c`, `c` is in `joinedChannels`
after the sequence if and only if the sequence contains a join or part command
with at least one param whose first param is `c` and the last such command is
a join. In particular the handlers of a disconnect and of a session-established
event return with the set they were given. -/
theorem membership_invariant (debug : Bool) (reconnect : Int) (events : List Event) :
    (∃ joinedChannels out,
      run debug reconnect events ∅ = some (joinedChannels, out) ∧
      ∀ c, c ∈ joinedChannels ↔
        ∃ before cmd after, events = before ++ Event.command cmd :: after ∧
          cmd.Method = "join" ∧ index cmd.Params 0 = some c ∧
          ∀ cmd', Event.command cmd' ∈ after → ¬ cmd'.isJoinOrPartOf c) ∧
    (∀ (S : Finset String) (errs : List String),
      ∃ out, step debug reconnect (Event.disconnect errs) S = some (S, out)) ∧
    (∀ (S : Finset String) (order : RangeOrder),
      ∃ out, step debug reconnect (Event.established order) S = some (S, out)) := by
  refine ⟨?_, fun S errs => step_disconnect debug reconnect errs S,
    fun S order => ⟨_, rfl⟩⟩
  obtain ⟨jc, out, h, hm⟩ := run_mem debug reconnect events ∅
  refine ⟨jc, out, h, fun c => ?_⟩
  rw [hm c]
  simp [lastIsJoin, noJoinPart]

theorem checkParams_cases (cmd : Command) (np : Int) :
    checkParams cmd np = (true, []) ∨
    checkParams cmd np = (false, [Effect.log (LogEntry.invalidCommand cmd)]) := by
  unfold checkParams
  split_ifs
  · exact Or.inr rfl
  · exact Or.inl rfl

theorem effectsOf_append (xs ys : List Action) :
    effectsOf (xs ++ ys) = effectsOf xs ++ effectsOf ys := by
  induction xs with
  | nil => rfl
  | cons x xs ih => cases x <;> simp [effectsOf, ih]

theorem effectsOf_map (out : List Effect) : effectsOf (out.map Action.effect) = out := by
  induction out with
  | nil => rfl
  | cons e out ih => simp [effectsOf, ih]

theorem applyMap_map (out : List Effect) (rest : List Action) (jc : Finset String) :
    applyMap (out.map Action.effect ++ rest) jc = applyMap rest jc := by
  induction out with
  | nil => rfl
  | cons e out ih => simpa [applyMap] using ih

theorem applyMap_append (xs ys : List Action) (jc : Finset String) :
    applyMap (xs ++ ys) jc = applyMap ys (applyMap xs jc) := by
  induction xs generalizing jc with
  | nil => rfl
  | cons x xs ih => cases x <;> simp [applyMap, ih]

/-- The steps of the `switch` statement carry the effects and the set update of
`dispatch`. -/
theorem dispatchSteps_agree (cmd : Command) (jc : Finset String) :
    dispatch cmd jc = (dispatchSteps cmd).map (fun p => (applyMap p jc, effectsOf p)) := by
  unfold dispatch dispatchSteps
  split_ifs
  · rcases checkParams_cases cmd 2 with h | h <;> rw [h] <;>
      cases index cmd.Params 0 <;> cases index cmd.Params 1 <;>
      simp [effectsOf, applyMap]
  · rcases checkParams_cases cmd 2 with h | h <;> rw [h] <;>
      cases index cmd.Params 0 <;> cases index cmd.Params 1 <;>
      simp [effectsOf, applyMap]
  · rcases checkParams_cases cmd 1 with h | h <;> rw [h] <;>
      cases index cmd.Params 0 <;> simp [effectsOf, applyMap]
  · rcases checkParams_cases cmd 1 with h | h <;> rw [h] <;>
      cases index cmd.Params 0 <;> simp [effectsOf, applyMap]
  · simp [effectsOf, applyMap]

theorem handleCommandSteps_agree (debug : Bool) (cmd : Command) (jc : Finset String) :
    handleCommand debug cmd jc
      = (handleCommandSteps debug cmd).map (fun p => (applyMap p jc, effectsOf p)) := by
  unfold handleCommand handleCommandSteps
  rw [dispatchSteps_agree]
  cases dispatchSteps cmd with
  | none => rfl
  | some body => cases debug <;> simp [effectsOf_append, effectsOf, applyMap, applyMap_append]

theorem handleCommandsIterSteps_agree (debug : Bool) (cmd : Command) (jc : Finset String) :
    Main.handleCommandsIter debug cmd jc
      = (Main.handleCommandsIterSteps debug cmd).map
          (fun p => (applyMap p jc, effectsOf p)) := by
  unfold Main.handleCommandsIter Main.handleCommandsIterSteps
  rw [dispatchSteps_agree]
  cases dispatchSteps cmd with
  | none => rfl
  | some body => cases debug <;> simp [effectsOf_append, effectsOf, applyMap, applyMap_append]

theorem handleDisconnectsSteps_agree (reconnect : Int) (connect : Nat → Option String)
    (fuel : Nat) (jc : Finset String) :
    handleDisconnects reconnect connect fuel jc
      = if (retryLoop reconnect connect fuel 0).2 then
          some (applyMap (handleDisconnectsSteps reconnect connect fuel) jc,
            effectsOf (handleDisconnectsSteps reconnect connect fuel))
        else none := by
  rw [handleDisconnects_eq]
  unfold handleDisconnectsSteps
  cases (retryLoop reconnect connect fuel 0).2
  · rfl
  · have h := applyMap_map ([Effect.log LogEntry.disconnected, Effect.lock]
        ++ (retryLoop reconnect connect fuel 0).1 ++ [Effect.unlock]) [] jc
    rw [List.append_nil] at h
    simp only [if_true, effectsOf_map, h]
    rfl

theorem effectsOf_rejoinSteps (ks : List String) : effectsOf (rejoinSteps ks) = rejoin ks := by
  induction ks with
  | nil => rfl
  | cons k ks ih => simp [rejoinSteps, rejoin, effectsOf, ih]

theorem applyMap_rejoinSteps (ks : List String) (rest : List Action) (jc : Finset String) :
    applyMap (rejoinSteps ks ++ rest) jc = applyMap rest jc := by
  induction ks with
  | nil => rfl
  | cons k ks ih => simpa [rejoinSteps, applyMap] using ih

theorem handleReconnectsSteps_agree (order : RangeOrder) (jc : Finset String) :
    handleReconnects order jc
      = (applyMap (handleReconnectsSteps order jc) jc,
          effectsOf (handleReconnectsSteps order jc)) := by
  unfold handleReconnects handleReconnectsSteps
  simp [effectsOf_append, effectsOf, effectsOf_rejoinSteps, applyMap, applyMap_rejoinSteps]

/-! ### The lock discipline of the handlers -/

theorem afterShape_of_logs (xs : List Action) (h : ∀ a ∈ xs, a.isLog = true) :
    afterShape xs = true := by
  induction xs with
  | nil => rfl
  | cons x xs ih =>
    simp only [afterShape, Bool.and_eq_true]
    exact ⟨h x (List.mem_cons_self _ _), ih (fun a ha => h a (List.mem_cons_of_mem _ ha))⟩

theorem insideShape_append (xs ys : List Action) (h : ∀ a ∈ xs, a.isMutexOp = false) :
    insideShape (xs ++ ys) = insideShape ys := by
  induction xs with
  | nil => rfl
  | cons x xs ih =>
    have hx := h x (List.mem_cons_self _ _)
    have hne : x ≠ Action.effect Effect.unlock := by
      intro e
      rw [e] at hx
      exact absurd hx (by decide)
    simp only [List.cons_append, insideShape, if_neg hne, hx, Bool.not_false, Bool.true_and]
    exact ih (fun a ha => h a (List.mem_cons_of_mem _ ha))

theorem dispatchSteps_nomutex (cmd : Command) (body : List Action)
    (h : dispatchSteps cmd = some body) : ∀ a ∈ body, a.isMutexOp = false := by
  unfold dispatchSteps at h
  split_ifs at h
  · rcases checkParams_cases cmd 2 with hc | hc <;> rw [hc] at h <;>
      cases h0 : index cmd.Params 0 <;> cases h1 : index cmd.Params 1 <;>
      simp [h0, h1] at h <;> subst h <;> simp [Action.isMutexOp]
  · rcases checkParams_cases cmd 2 with hc | hc <;> rw [hc] at h <;>
      cases h0 : index cmd.Params 0 <;> cases h1 : index cmd.Params 1 <;>
      simp [h0, h1] at h <;> subst h <;> simp [Action.isMutexOp]
  · rcases checkParams_cases cmd 1 with hc | hc <;> rw [hc] at h <;>
      cases h0 : index cmd.Params 0 <;>
      simp [h0] at h <;> subst h <;> simp [Action.isMutexOp]
  · rcases checkParams_cases cmd 1 with hc | hc <;> rw [hc] at h <;>
      cases h0 : index cmd.Params 0 <;>
      simp [h0] at h <;> subst h <;> simp [Action.isMutexOp]
  · simp at h
    subst h
    simp

theorem retryLoop_nomutex (reconnect : Int) (connect : Nat → Option String) :
    ∀ (fuel k : Nat), ∀ e ∈ (retryLoop reconnect connect fuel k).1,
      (Action.effect e).isMutexOp = false
  | 0, _ => by simp [retryLoop]
  | fuel + 1, k => by
    intro e he
    cases hc : connect k with
    | none =>
      rw [retryLoop_succ_none reconnect connect fuel k hc] at he
      simp [attempt] at he
      rcases he with rfl | rfl | rfl | rfl <;> rfl
    | some err =>
      rw [retryLoop_succ_some reconnect connect fuel k err hc] at he
      simp only [List.mem_append] at he
      rcases he with (he | he) | he
      · simp [attempt] at he
        rcases he with rfl | rfl | rfl <;> rfl
      · simp at he
        subst he
        rfl
      · exact retryLoop_nomutex reconnect connect fuel (k + 1) e he

theorem rejoinSteps_nomutex (ks : List String) : ∀ a ∈ rejoinSteps ks, a.isMutexOp = false := by
  induction ks with
  | nil => simp [rejoinSteps]
  | cons k ks ih =>
    intro a ha
    simp only [rejoinSteps, List.mem_cons] at ha
    rcases ha with rfl | rfl | rfl | ha
    · rfl
    · rfl
    · rfl
    · exact ih a ha

theorem beforeShape_lock (rest : List Action) :
    beforeShape (Action.effect Effect.lock :: rest) = insideShape rest := by
  simp [beforeShape]

theorem beforeShape_log (e : LogEntry) (rest : List Action) :
    beforeShape (Action.effect (Effect.log e) :: rest) = beforeShape rest := by
  simp [beforeShape, Action.isLog]

theorem handleCommandSteps_shape (debug : Bool) (cmd : Command) (p : List Action)
    (h : handleCommandSteps debug cmd = some p) : beforeShape p = true := by
  unfold handleCommandSteps at h
  cases hb : dispatchSteps cmd with
  | none => simp [hb] at h
  | some body =>
    simp only [hb, Option.bind_eq_bind, Option.some_bind, Option.pure_def,
      Option.some.injEq] at h
    subst h
    have hbody : ∀ a ∈ body
        ++ (if debug then [Action.effect (Effect.log (LogEntry.handled cmd))] else []),
        a.isMutexOp = false := by
      intro a ha
      rcases List.mem_append.mp ha with ha | ha
      · exact dispatchSteps_nomutex cmd body hb a ha
      · cases debug <;> simp at ha
        subst ha
        rfl
    have := insideShape_append _ [Action.effect Effect.unlock] hbody
    have e : [Action.effect Effect.lock] ++ body
        ++ (if debug then [Action.effect (Effect.log (LogEntry.handled cmd))] else [])
        ++ [Action.effect Effect.unlock]
        = Action.effect Effect.lock :: ((body
          ++ (if debug then [Action.effect (Effect.log (LogEntry.handled cmd))] else []))
          ++ [Action.effect Effect.unlock]) := by simp
    rw [e, beforeShape_lock, this]
    rfl

theorem handleCommandsIterSteps_shape (debug : Bool) (cmd : Command) (p : List Action)
    (h : Main.handleCommandsIterSteps debug cmd = some p) : beforeShape p = true := by
  unfold Main.handleCommandsIterSteps at h
  cases hb : dispatchSteps cmd with
  | none => simp [hb] at h
  | some body =>
    simp only [hb, Option.bind_eq_bind, Option.some_bind, Option.pure_def,
      Option.some.injEq] at h
    subst h
    have := insideShape_append body ([Action.effect Effect.unlock]
      ++ (if debug then [Action.effect (Effect.log (LogEntry.handled cmd))] else []))
      (dispatchSteps_nomutex cmd body hb)
    have e : [Action.effect Effect.lock] ++ body ++ [Action.effect Effect.unlock]
        ++ (if debug then [Action.effect (Effect.log (LogEntry.handled cmd))] else [])
        = Action.effect Effect.lock :: (body ++ ([Action.effect Effect.unlock]
          ++ (if debug then [Action.effect (Effect.log (LogEntry.handled cmd))] else [])))
        := by simp
    rw [e, beforeShape_lock, this]
    cases debug <;> rfl

theorem handleDisconnectsSteps_shape (reconnect : Int) (connect : Nat → Option String)
    (fuel : Nat) : beforeShape (handleDisconnectsSteps reconnect connect fuel) = true := by
  unfold handleDisconnectsSteps
  have hbody : ∀ a ∈ (retryLoop reconnect connect fuel 0).1.map Action.effect,
      a.isMutexOp = false := by
    intro a ha
    obtain ⟨e, he, rfl⟩ := List.mem_map.mp ha
    exact retryLoop_nomutex reconnect connect fuel 0 e he
  have := insideShape_append _
    ((if (retryLoop reconnect connect fuel 0).2 then [Effect.unlock] else []).map
      Action.effect) hbody
  have e : ([Effect.log LogEntry.disconnected, Effect.lock]
      ++ (retryLoop reconnect connect fuel 0).1
      ++ (if (retryLoop reconnect connect fuel 0).2 then [Effect.unlock] else [])).map
        Action.effect
      = Action.effect (Effect.log LogEntry.disconnected) :: Action.effect Effect.lock
        :: ((retryLoop reconnect connect fuel 0).1.map Action.effect
          ++ (if (retryLoop reconnect connect fuel 0).2 then [Effect.unlock] else []).map
            Action.effect) := by simp
  rw [e, beforeShape_log, beforeShape_lock, this]
  cases (retryLoop reconnect connect fuel 0).2 <;> rfl

theorem handleReconnectsSteps_shape (order : RangeOrder) (jc : Finset String) :
    beforeShape (handleReconnectsSteps order jc) = true := by
  unfold handleReconnectsSteps
  have := insideShape_append _ [Action.effect Effect.unlock]
    (rejoinSteps_nomutex (order.keys jc))
  have e : [Action.effect Effect.lock] ++ rejoinSteps (order.keys jc)
      ++ [Action.effect Effect.unlock]
      = Action.effect Effect.lock
        :: (rejoinSteps (order.keys jc) ++ [Action.effect Effect.unlock]) := by simp
  rw [e, beforeShape_lock, this]
  rfl

/-- Every handler keeps the lock discipline: log lines only, `Lock`, steps that
are no mutex operation, `Unlock` (if it returns), log lines only. -/
theorem lock_discipline (inv : Invocation) (p : List Action) (h : inv.steps = some p) :
    beforeShape p = true := by
  cases inv with
  | handleCommand debug cmd => exact handleCommandSteps_shape debug cmd p h
  | handleDisconnects reconnect connect fuel =>
    simp only [Invocation.steps, Option.some.injEq] at h
    subst h
    exact handleDisconnectsSteps_shape reconnect connect fuel
  | handleReconnects order jc =>
    simp only [Invocation.steps, Option.some.injEq] at h
    subst h
    exact handleReconnectsSteps_shape order jc
  | mainHandleCommands debug cmd => exact handleCommandsIterSteps_shape debug cmd p h
  | mainDisconnected connect fuel =>
    simp only [Invocation.steps, Option.some.injEq] at h
    subst h
    exact handleDisconnectsSteps_shape Main.reconnectInterval connect fuel
  | mainInit order jc =>
    simp only [Invocation.steps, Option.some.injEq] at h
    subst h
    exact handleReconnectsSteps_shape order jc

/-! ### Interleavings under the mutex -/

theorem spawn_consistent (progs : List (List Action))
    (h : ∀ p ∈ progs, beforeShape p = true) : (spawn progs).consistent := by
  intro i g hg
  simp only [spawn, List.getElem?_map, Option.map_eq_some'] at hg
  obtain ⟨p, hp, rfl⟩ := hg
  exact Or.inl ⟨h p (List.getElem?_mem hp), by simp, by simp [spawn]⟩

/-- Replacing goroutine `i` and the holder keeps the process consistent when
the new goroutine and every other goroutine agree with the new holder. -/
theorem consistent_set (s : System) (i : Nat) (g : Goroutine) (holder : Option Nat)
    (hg : g.consistent holder i)
    (hothers : ∀ (j : Nat) (gj : Goroutine), j ≠ i → s.goroutines[j]? = some gj →
      gj.consistent holder j) :
    (⟨holder, s.goroutines.set i g⟩ : System).consistent := by
  intro j gj hj
  simp only [List.getElem?_set] at hj
  by_cases hij : i = j
  · subst hij
    rw [if_pos rfl] at hj
    split_ifs at hj
    simp only [Option.some.injEq] at hj
    subst hj
    exact hg
  · rw [if_neg hij] at hj
    exact hothers j gj (fun e => hij e.symm) hj

theorem inSection_iff_holder (g : Goroutine) (holder : Option Nat) (i : Nat)
    (h : g.consistent holder i) : g.inSection ↔ holder = some i := by
  rcases h with ⟨_, hlogs, hne⟩ | ⟨_, hin, hh⟩ | ⟨_, hun, hne⟩
  · constructor
    · intro hs
      exact absurd (hlogs _ hs.1) (by decide)
    · intro hh
      exact absurd hh hne
  · exact ⟨fun _ => hh, fun _ => hin⟩
  · constructor
    · intro hs
      exact absurd hun hs.2
    · intro hh
      exact absurd hh hne

/-- A goroutine whose next step touches the session or the map, or releases
the lock, is inside its section. -/
theorem next_step_inside (g : Goroutine) (holder : Option Nat) (i : Nat) (a : Action)
    (rest : List Action) (h : g.consistent holder i) (htodo : g.todo = a :: rest)
    (ha : a.isProtected = true ∨ a = Action.effect Effect.unlock) :
    holder = some i ∧ g.inSection := by
  have hlog : a.isLog = false := by
    rcases ha with ha | rfl
    · cases a with
      | effect e =>
        cases e with
        | log l => simp [Action.isProtected] at ha
        | _ => rfl
      | mapInsert k => rfl
      | mapDelete k => rfl
      | mapRange k => rfl
    · rfl
  have hlock : a ≠ Action.effect Effect.lock := by
    rcases ha with ha | rfl
    · intro e
      rw [e] at ha
      exact absurd ha (by decide)
    · decide
  rcases h with ⟨hb, _, _⟩ | ⟨_, hin, hh⟩ | ⟨haf, _, _⟩
  · rw [htodo] at hb
    simp [beforeShape, hlock, hlog] at hb
  · exact ⟨hh, hin⟩
  · rw [htodo] at haf
    simp [afterShape, hlog] at haf

/-- A step of any goroutine keeps the process consistent. -/
theorem advance_consistent (i : Nat) (s s' : System) (hs : s.consistent)
    (h : advance i s = some s') : s'.consistent := by
  unfold advance at h
  cases hg : s.goroutines[i]? with
  | none => simp [hg] at h
  | some g =>
    have hgc := hs i g hg
    cases htodo : g.todo with
    | nil => simp [hg, htodo] at h
    | cons a rest =>
      simp only [hg, htodo] at h
      by_cases hl : a = Action.effect Effect.lock
      · subst hl
        rw [if_pos rfl] at h
        by_cases hh : s.holder = none
        · rw [if_pos hh] at h
          simp only [Option.some.injEq] at h
          subst h
          refine consistent_set s i _ (some i) ?_ ?_
          · rcases hgc with ⟨hb, hlogs, _⟩ | ⟨_, _, hi⟩ | ⟨haf, _, _⟩
            · rw [htodo, beforeShape_lock] at hb
              refine Or.inr (Or.inl ⟨hb, ⟨by simp, ?_⟩, rfl⟩)
              intro hmem
              rcases List.mem_append.mp hmem with hm | hm
              · exact absurd (hlogs _ hm) (by decide)
              · simp at hm
            · rw [hh] at hi
              exact absurd hi (by simp)
            · rw [htodo] at haf
              simp [afterShape, Action.isLog] at haf
          · intro j gj hji hj
            rcases hs j gj hj with ⟨hb, hlogs, _⟩ | ⟨_, _, hi⟩ | ⟨haf, hun, _⟩
            · exact Or.inl ⟨hb, hlogs, fun e => hji (Option.some.inj e).symm⟩
            · rw [hh] at hi
              exact absurd hi (by simp)
            · exact Or.inr (Or.inr ⟨haf, hun, fun e => hji (Option.some.inj e).symm⟩)
        · rw [if_neg hh] at h
          exact absurd h (by simp)
      · rw [if_neg hl] at h
        by_cases hu : a = Action.effect Effect.unlock
        · subst hu
          rw [if_pos rfl] at h
          by_cases hh : s.holder = none
          · rw [if_pos hh] at h
            exact absurd h (by simp)
          · rw [if_neg hh] at h
            simp only [Option.some.injEq] at h
            subst h
            obtain ⟨hhold, _⟩ := next_step_inside g s.holder i _ rest hgc htodo (Or.inr rfl)
            refine consistent_set s i _ none ?_ ?_
            · rcases hgc with ⟨hb, _, _⟩ | ⟨hin, _, _⟩ | ⟨haf, _, _⟩
              · rw [htodo] at hb
                simp [beforeShape, Action.isLog] at hb
              · rw [htodo] at hin
                simp only [insideShape, if_true] at hin
                exact Or.inr (Or.inr ⟨hin, by simp, by simp⟩)
              · rw [htodo] at haf
                simp [afterShape, Action.isLog] at haf
            · intro j gj hji hj
              rcases hs j gj hj with ⟨hb, hlogs, _⟩ | ⟨_, _, hi⟩ | ⟨haf, hun, _⟩
              · exact Or.inl ⟨hb, hlogs, by simp⟩
              · rw [hhold] at hi
                exact absurd (Option.some.inj hi).symm hji
              · exact Or.inr (Or.inr ⟨haf, hun, by simp⟩)
        · rw [if_neg hu] at h
          simp only [Option.some.injEq] at h
          subst h
          refine consistent_set s i _ s.holder ?_ (fun j gj _ hj => hs j gj hj)
          rcases hgc with ⟨hb, hlogs, hne⟩ | ⟨hin, hsec, hi⟩ | ⟨haf, hun, hne⟩
          · rw [htodo] at hb
            simp only [beforeShape, if_neg hl, Bool.and_eq_true] at hb
            refine Or.inl ⟨hb.2, ?_, hne⟩
            intro b hbm
            rcases List.mem_append.mp hbm with hm | hm
            · exact hlogs b hm
            · simp only [List.mem_singleton] at hm
              rw [hm]
              exact hb.1
          · rw [htodo] at hin
            simp only [insideShape, if_neg hu, Bool.and_eq_true] at hin
            refine Or.inr (Or.inl ⟨hin.2, ⟨?_, ?_⟩, hi⟩)
            · exact List.mem_append_left _ hsec.1
            · intro hmem
              rcases List.mem_append.mp hmem with hm | hm
              · exact hsec.2 hm
              · simp only [List.mem_singleton] at hm
                exact hu hm.symm
          · rw [htodo] at haf
            simp only [afterShape, Bool.and_eq_true] at haf
            exact Or.inr (Or.inr ⟨haf.2, List.mem_append_left _ hun, hne⟩)

theorem runSchedule_consistent :
    ∀ (schedule : List Nat) (s s' : System), s.consistent →
      runSchedule schedule s = some s' → s'.consistent
  | [], s, s', hs, h => by
    simp only [runSchedule, Option.some.injEq] at h
    subst h
    exact hs
  | i :: schedule, s, s', hs, h => by
    simp only [runSchedule] at h
    cases ha : advance i s with
    | none => simp [ha] at h
    | some s1 =>
      rw [ha] at h
      exact runSchedule_consistent schedule s1 s' (advance_consistent i s s1 hs ha) h

theorem afterShape_logs (q : List Action) (h : afterShape q = true) :
    ∀ a ∈ q, a.isLog = true := by
  induction q with
  | nil => simp
  | cons x q ih =>
    simp only [afterShape, Bool.and_eq_true] at h
    intro a ha
    rcases List.mem_cons.mp ha with rfl | ha
    · exact h.1
    · exact ih h.2 a ha

theorem insideShape_reading (q : List Action) (h : insideShape q = true) :
    ∃ body tail, q = body ++ tail ∧ (∀ a ∈ body, a.isMutexOp = false) ∧
      (tail = [] ∨ ∃ post, tail = Action.effect Effect.unlock :: post ∧
        ∀ a ∈ post, a.isLog = true) := by
  induction q with
  | nil => exact ⟨[], [], rfl, by simp, Or.inl rfl⟩
  | cons x q ih =>
    by_cases hu : x = Action.effect Effect.unlock
    · subst hu
      simp only [insideShape, if_true] at h
      exact ⟨[], _, rfl, by simp, Or.inr ⟨q, rfl, afterShape_logs q h⟩⟩
    · simp only [insideShape, if_neg hu, Bool.and_eq_true, Bool.not_eq_true'] at h
      obtain ⟨body, tail, hq, hbody, htail⟩ := ih h.2
      refine ⟨x :: body, tail, by rw [hq, List.cons_append], ?_, htail⟩
      intro a ha
      rcases List.mem_cons.mp ha with rfl | ha
      · exact h.1
      · exact hbody a ha

/-- What the lock discipline says of a list of steps: log lines, `Lock`, steps
that are no mutex operation, and then either nothing (a retry loop that has
not returned) or `Unlock` followed by log lines. -/
theorem beforeShape_reading (p : List Action) (h : beforeShape p = true) :
    ∃ pre body tail, p = pre ++ Action.effect Effect.lock :: (body ++ tail) ∧
      (∀ a ∈ pre, a.isLog = true) ∧ (∀ a ∈ body, a.isMutexOp = false) ∧
      (tail = [] ∨ ∃ post, tail = Action.effect Effect.unlock :: post ∧
        ∀ a ∈ post, a.isLog = true) := by
  induction p with
  | nil => simp [beforeShape] at h
  | cons x p ih =>
    by_cases hl : x = Action.effect Effect.lock
    · subst hl
      rw [beforeShape_lock] at h
      obtain ⟨body, tail, hq, hbody, htail⟩ := insideShape_reading p h
      exact ⟨[], body, tail, by rw [hq, List.nil_append], by simp, hbody, htail⟩
    · simp only [beforeShape, if_neg hl, Bool.and_eq_true] at h
      obtain ⟨pre, body, tail, hq, hpre, hbody, htail⟩ := ih h.2
      refine ⟨x :: pre, body, tail, by rw [hq, List.cons_append], ?_, hbody, htail⟩
      intro a ha
      rcases List.mem_cons.mp ha with rfl | ha
      · exact h.1
      · exact hpre a ha

/-! ## C10: mutual exclusion -/

/-- C10. Mutual exclusion. Let any number of goroutines each run one of the
handlers that use `clientLock` (command dispatch, the disconnect retry loop,
the membership restoration, in either variant), and let them take steps in any
order the mutex allows. Every handler takes the lock before its first step
that touches the session or `joinedChannels` and releases it only as its last
step before returning: its steps are log lines, `Lock`, steps that are no mutex
operation, and then `Unlock` followed by log lines (or nothing more, for a
retry loop that has not returned). In every state that can be
reached: at most one goroutine is between its `Lock` and its `Unlock`, and it
is the holder of the mutex; a goroutine whose next step touches the session or
the map, or releases the lock, is that holder; and while a goroutine is in its
section no other goroutine's next step touches the session or the map, and a
`Lock` by another goroutine does not go through. -/
theorem handlers_mutually_exclusive (progs : List (List Action)) (schedule : List Nat)
    (s : System)
    (hprogs : ∀ p ∈ progs, ∃ inv : Invocation, inv.steps = some p)
    (hrun : runSchedule schedule (spawn progs) = some s) :
    (∀ p ∈ progs, ∃ pre body tail,
      p = pre ++ Action.effect Effect.lock :: (body ++ tail) ∧
      (∀ a ∈ pre, a.isLog = true) ∧ (∀ a ∈ body, a.isMutexOp = false) ∧
      (tail = [] ∨ ∃ post, tail = Action.effect Effect.unlock :: post ∧
        ∀ a ∈ post, a.isLog = true)) ∧
    (∀ (i j : Nat) (gi gj : Goroutine), s.goroutines[i]? = some gi →
      s.goroutines[j]? = some gj → gi.inSection → gj.inSection → i = j) ∧
    (∀ (i : Nat) (g : Goroutine), s.goroutines[i]? = some g →
      (g.inSection ↔ s.holder = some i)) ∧
    (∀ (i : Nat) (g : Goroutine) (a : Action) (rest : List Action),
      s.goroutines[i]? = some g → g.todo = a :: rest →
      a.isProtected = true ∨ a = Action.effect Effect.unlock →
      s.holder = some i ∧ g.inSection) ∧
    (∀ (i j : Nat) (gi gj : Goroutine) (a : Action) (rest : List Action),
      s.goroutines[i]? = some gi → gi.inSection → j ≠ i →
      s.goroutines[j]? = some gj → gj.todo = a :: rest →
      a.isProtected = false ∧ (a = Action.effect Effect.lock → advance j s = none)) := by
  have hshape : ∀ p ∈ progs, beforeShape p = true := by
    intro p hp
    obtain ⟨inv, hinv⟩ := hprogs p hp
    exact lock_discipline inv p hinv
  have hs : s.consistent :=
    runSchedule_consistent schedule (spawn progs) s (spawn_consistent progs hshape) hrun
  have hiff : ∀ (i : Nat) (g : Goroutine), s.goroutines[i]? = some g →
      (g.inSection ↔ s.holder = some i) :=
    fun i g hg => inSection_iff_holder g s.holder i (hs i g hg)
  have hnext : ∀ (i : Nat) (g : Goroutine) (a : Action) (rest : List Action),
      s.goroutines[i]? = some g → g.todo = a :: rest →
      a.isProtected = true ∨ a = Action.effect Effect.unlock →
      s.holder = some i ∧ g.inSection :=
    fun i g a rest hg htodo ha => next_step_inside g s.holder i a rest (hs i g hg) htodo ha
  refine ⟨fun p hp => beforeShape_reading p (hshape p hp), ?_, hiff, hnext, ?_⟩
  · intro i j gi gj hi hj hsi hsj
    have h1 := (hiff i gi hi).mp hsi
    have h2 := (hiff j gj hj).mp hsj
    rw [h1] at h2
    exact Option.some.inj h2
  · intro i j gi gj a rest hi hsi hji hj htodo
    have hhold := (hiff i gi hi).mp hsi
    constructor
    · cases hp : a.isProtected with
      | false => rfl
      | true =>
        have := (hnext j gj a rest hj htodo (Or.inl hp)).1
        rw [hhold] at this
        exact absurd (Option.some.inj this).symm hji
    · intro ha
      subst ha
      simp [advance, hj, htodo, hhold]

/-- Witness of C10: a restoration pass on `{"#room"}` and the dispatch of part
`["#room"]` run as two goroutines. After three steps of the restoration pass
it holds the lock and its next step is `Join("#room")`; the dispatch has not
started, is not in its section, and its `Lock` does not go through. -/
theorem handlers_mutually_exclusive_witness :
    (∀ p ∈ [restorationSteps, partSteps], ∃ inv : Invocation, inv.steps = some p) ∧
    ∃ s, runSchedule [0, 0, 0] (spawn [restorationSteps, partSteps]) = some s ∧
      s.holder = some 0 ∧
      (∃ g rest, s.goroutines[0]? = some g ∧
        g.todo = Action.effect (Effect.session (SessionOp.Join "#room")) :: rest ∧
        g.inSection) ∧
      (∃ g, s.goroutines[1]? = some g ∧ g.todo = partSteps ∧ ¬ g.inSection) ∧
      advance 1 s = none := by
  have hprogs : ∀ p ∈ [restorationSteps, partSteps],
      ∃ inv : Invocation, inv.steps = some p := by
    intro p hp
    simp only [List.mem_cons, List.mem_singleton, List.not_mem_nil, or_false] at hp
    rcases hp with rfl | rfl
    · exact ⟨Invocation.handleReconnects sortedOrder {"#room"}, by
        simp [Invocation.steps, handleReconnectsSteps, sortedOrder, rejoinSteps,
          restorationSteps]⟩
    · exact ⟨Invocation.handleCommand false ⟨"part", ["#room"]⟩, by decide⟩
  have hrun : runSchedule [0, 0, 0] (spawn [restorationSteps, partSteps])
      = some ⟨some 0,
          [⟨[Action.effect Effect.lock, Action.mapRange "#room",
              Action.effect (Effect.log (LogEntry.rejoining "#room"))],
            [Action.effect (Effect.session (SessionOp.Join "#room")),
              Action.effect Effect.unlock]⟩,
           ⟨[], partSteps⟩]⟩ := by decide
  obtain ⟨_, _, hiff, hnext, hother⟩ :=
    handlers_mutually_exclusive [restorationSteps, partSteps] [0, 0, 0] _ hprogs hrun
  have h0 := hnext 0 _ _ _ rfl rfl (Or.inl rfl)
  refine ⟨hprogs, _, hrun, rfl, ⟨_, _, rfl, rfl, h0.2⟩, ⟨_, rfl, rfl, ?_⟩, ?_⟩
  · intro h1
    have := (hiff 1 _ rfl).mp h1
    exact absurd this (by decide)
  · exact (hother 0 1 _ _ _ _ rfl h0.2 (by decide) rfl rfl).2 rfl

end IrcBridge
